import Mathlib

/-!
Shallow embedding of the procedural map generator of creaturegame-2
(src/map.go) and verification of its specification claims.

Conventions of the embedding:
* Machine integers are `Int`/`Nat`; map coordinates are `Int` (Go `int`).
* The Go string keys produced by `formatCoord` are modelled as their UTF-8
  byte sequences (`List Nat`), including Go's conversion of invalid code
  points to U+FFFD.
* The Go maps `grassTiles`, `bridgeTiles`, `collisionMap` (from string to
  bool) are modelled as key lists with membership semantics; insertion is
  idempotent, deletion removes the key.
* `math/rand` is modelled as an explicit deterministic stream of naturals.
  `rand.Float32()` draws are modelled at 0.1 granularity (a draw is a value
  in `[0,10)`): every comparison `rand.Float32() < p` in map.go uses
  `p ∈ {0.2, 0.3, 0.5, 0.7}`, embedded as `draw < 10p`, which realizes
  exactly the same reachable branch outcomes.  `rand.Intn n` is the next
  stream value mod `n`.  Short-circuit evaluation of `&&`/`||` in map.go is
  preserved: a draw is consumed exactly when Go would consume it.
* Indexing a tile array out of bounds panics in Go; the embedding runs in
  `Except GenErr` and returns `.error .oob` there.  The unbounded
  per-segment walk of generatePaths takes a fuel parameter and returns
  `.error .fuelOut` when the fuel ends before the waypoint is reached.
-/

namespace CreatureMap

/-! ## Tile and layer constants (map.go lines 12-27) -/

def TileGrass : Nat := 0
def TilePath : Nat := 1
def TileWater : Nat := 2
def TileBridge : Nat := 3
def TileMountain : Nat := 4

/-! ## String keys: formatCoord (map.go lines 592-595) -/

/-- A Go string, as its UTF-8 byte sequence. -/
abbrev Key := List Nat

/-- UTF-8 encoding of a code point (assumed valid and non-surrogate). -/
def utf8Bytes (n : Nat) : List Nat :=
  if n < 0x80 then [n]
  else if n < 0x800 then [0xC0 + n / 64, 0x80 + n % 64]
  else if n < 0x10000 then [0xE0 + n / 4096, 0x80 + n / 64 % 64, 0x80 + n % 64]
  else [0xF0 + n / 262144, 0x80 + n / 4096 % 64, 0x80 + n / 64 % 64, 0x80 + n % 64]

/-- Go conversion `string(rune(x))`: negative values, values beyond U+10FFFF
and surrogate code points all yield the replacement character U+FFFD. -/
def goRuneString (x : Int) : List Nat :=
  if x < 0 ∨ (0x10FFFF : Int) < x ∨ ((0xD800 : Int) ≤ x ∧ x ≤ (0xDFFF : Int)) then
    utf8Bytes 0xFFFD
  else
    utf8Bytes x.toNat

/-- formatCoord from map.go: `string(rune(x)) + "," + string(rune(y))`.
The byte 44 is the comma. -/
def formatCoord (x y : Int) : Key :=
  goRuneString x ++ [44] ++ goRuneString y

/-! ## Coordinate-keyed sets (the Go `map[string]bool` values) -/

abbrev KeySet := List Key

def insertKey (k : Key) (s : KeySet) : KeySet :=
  if k ∈ s then s else k :: s

def eraseKey (k : Key) (s : KeySet) : KeySet :=
  s.filter (fun k2 => k2 != k)

/-! ## Grids -/

/-- A tile layer: `height` rows of `width` cells. -/
abbrev Grid := List (List Nat)

/-- The boolean water scratch grid of generateWaterBodies. -/
abbrev BGrid := List (List Bool)

/-- Read cell `(x, y)`; `none` exactly when the index is out of bounds
(where Go panics). -/
def getG {α : Type} (g : List (List α)) (y x : Int) : Option α :=
  if 0 ≤ y ∧ 0 ≤ x then (g[y.toNat]?).bind fun row => row[x.toNat]? else none

/-- Write cell `(x, y)`.  In the embedding every write site is dominated by
a successful checked read of the same cell, so the coordinates are in
bounds whenever this is evaluated. -/
def setG {α : Type} (g : List (List α)) (y x : Int) (v : α) : List (List α) :=
  g.set y.toNat ((g.getD y.toNat []).set x.toNat v)

/-! ## The random source -/

/-- Deterministic model of the `math/rand` global source: an infinite
stream of naturals with a cursor. -/
structure Rng where
  stream : Nat → Nat
  pos : Nat

/-- One raw draw. -/
def Rng.next (r : Rng) : Nat × Rng :=
  (r.stream r.pos, ⟨r.stream, r.pos + 1⟩)

/-- `rand.Float32()` at 0.1 granularity: a value in `[0,10)`.  A Go
comparison `rand.Float32() < p` is embedded as `draw < 10p`. -/
def randF (r : Rng) : Nat × Rng :=
  let p := r.next
  (p.1 % 10, p.2)

/-- `rand.Intn n` (n > 0 at every call site of map.go): a value in `[0,n)`. -/
def randIntn (n : Nat) (r : Rng) : Nat × Rng :=
  let p := r.next
  (p.1 % n, p.2)

/-! ## The generation monad -/

inductive GenErr where
  /-- An index out of bounds: Go would panic here. -/
  | oob
  /-- The fuel of the (source-level unbounded) path walk ran out. -/
  | fuelOut
deriving DecidableEq, Repr

abbrev GenM (α : Type) := Except GenErr α

/-- Checked array access. -/
def liftO {α : Type} (o : Option α) : GenM α :=
  match o with
  | some a => Except.ok a
  | none => Except.error GenErr.oob

/-! ## Map state (struct Map, map.go lines 29-38) -/

/-- Ghost record of one placed bridge: start cell, direction
(0 horizontal, 1 vertical) and the exclusive end coordinate of its run.
It mirrors the keys the placement loop inserts into `bridgeMap` and lets
the theorems speak about individual bridge footprints. -/
structure PlacedBridge where
  x : Nat
  y : Nat
  dir : Nat
  endC : Nat
deriving DecidableEq, Repr

/-- The map state mutated by the generation pass.  The unused Objects
layer is omitted; `placedBridges` is the ghost footprint log. -/
structure MapState where
  base : Grid
  overlay : Grid
  grassTiles : KeySet
  bridgeTiles : KeySet
  collisionMap : KeySet
  placedBridges : List PlacedBridge

/-- All-grass layer, as allocated by initMap. -/
def initLayers (w h : Nat) : Grid :=
  List.replicate h (List.replicate w TileGrass)

/-- Every coordinate marked as a grass tile (map.go lines 52-64; the source
re-inserts each key once per layer, which is idempotent). -/
def initGrass (w h : Nat) : KeySet :=
  (List.range h).foldl
    (fun s (y : Nat) => (List.range w).foldl
      (fun s2 (x : Nat) => insertKey (formatCoord (x : Int) (y : Int)) s2) s) []

def initState (w h : Nat) : MapState :=
  { base := initLayers w h
    overlay := initLayers w h
    grassTiles := initGrass w h
    bridgeTiles := []
    collisionMap := []
    placedBridges := [] }

/-! ## WaterSynthesizer (generateWaterBodies, map.go lines 80-221) -/

/-- One row of the initial water noise (`rand.Float32() < 0.3` per cell,
x ascending). -/
def seedRow : Nat → Rng → List Bool × Rng
  | 0, r => ([], r)
  | n + 1, r =>
    let p := randF r
    let q := seedRow n p.2
    (decide (p.1 < 3) :: q.1, q.2)

/-- The initial water noise grid, rows y ascending (map.go lines 82-90). -/
def seedWater (w : Nat) : Nat → Rng → BGrid × Rng
  | 0, r => ([], r)
  | n + 1, r =>
    let p := seedRow w r
    let q := seedWater w n p.2
    (p.1 :: q.1, q.2)

/-- The nine offsets `(dy, dx)` scanned by the neighbor-count loops of
map.go (dy outer, dx inner); note the loop does not skip `(0, 0)`. -/
def nbrOffsets : List (Int × Int) :=
  [(-1, -1), (-1, 0), (-1, 1), (0, -1), (0, 0), (0, 1), (1, -1), (1, 0), (1, 1)]

/-- The neighbor count of map.go lines 99-107: the number of offsets whose
target is in bounds and water.  The `(0,0)` offset is included, exactly as
in the source loop. -/
def waterNeighbors (w h : Nat) (m : BGrid) (x y : Int) : GenM Nat :=
  nbrOffsets.foldlM
    (fun acc d => do
      let nx := x + d.2
      let ny := y + d.1
      if 0 ≤ nx ∧ nx < (w : Int) ∧ 0 ≤ ny ∧ ny < (h : Int) then do
        let b ← liftO (getG m ny nx)
        pure (if b then acc + 1 else acc)
      else
        pure acc)
    0

/-- One cellular-automaton pass (map.go lines 94-114): the new grid is
computed cell by cell from the old grid, a cell is water iff its count is
at least 4. -/
def caPass (w h : Nat) (m : BGrid) : GenM BGrid :=
  (List.range h).mapM fun (y : Nat) =>
    (List.range w).mapM fun (x : Nat) => do
      let c ← waterNeighbors w h m (x : Int) (y : Int)
      pure (decide (4 ≤ c))

/-- The four relaxation passes (map.go line 93: `for range 4`). -/
def relaxWater (w h : Nat) (m : BGrid) : GenM BGrid := do
  let m1 ← caPass w h m
  let m2 ← caPass w h m1
  let m3 ← caPass w h m2
  caPass w h m3

/-- Does the cell have an in-bounds non-water cell in its 3x3 block
(map.go lines 125-137)?  The source breaks out of the scan at the first
hit; the or-fold performs the same in-bounds reads and yields the same
value. -/
def hasLandNeighbor (w h : Nat) (m : BGrid) (x y : Int) : GenM Bool :=
  nbrOffsets.foldlM
    (fun acc d => do
      let nx := x + d.2
      let ny := y + d.1
      if 0 ≤ nx ∧ nx < (w : Int) ∧ 0 ≤ ny ∧ ny < (h : Int) then do
        let b ← liftO (getG m ny nx)
        pure (acc || !b)
      else
        pure acc)
    false

/-- Collect river origins (map.go lines 119-143): every water cell with a
land neighbor is recorded with probability 0.2; the draw happens only when
the cell qualifies (short-circuit `&&`). -/
def riverOrigins (w h : Nat) (m : BGrid) (r : Rng) : GenM (List (Int × Int) × Rng) :=
  (List.range h).foldlM
    (fun acc (y : Nat) =>
      (List.range w).foldlM
        (fun acc2 (x : Nat) => do
          let b ← liftO (getG m (y : Int) (x : Int))
          if b then do
            let hl ← hasLandNeighbor w h m (x : Int) (y : Int)
            if hl then
              let p := randF acc2.2
              if p.1 < 2 then pure (acc2.1 ++ [((x : Int), (y : Int))], p.2)
              else pure (acc2.1, p.2)
            else pure acc2
          else pure acc2)
        acc)
    ([], r)

/-- The direction clamp of map.go lines 179-183 / 186-190. -/
def clampDir (d : Int) : Int :=
  if d < -1 then -1 else if 1 < d then 1 else d

/-- Initial river direction (map.go lines 153-164). -/
def riverDir (r : Rng) : (Int × Int) × Rng :=
  let p := randF r
  if p.1 < 5 then
    let q := randIntn 3 p.2
    let dx : Int := (q.1 : Int) - 1
    if dx = 0 then
      let q2 := randIntn 2 q.2
      ((dx, (q2.1 : Int) * 2 - 1), q2.2)
    else ((dx, 0), q.2)
  else
    let q := randIntn 3 p.2
    let dy : Int := (q.1 : Int) - 1
    if dy = 0 then
      let q2 := randIntn 2 q.2
      (((q2.1 : Int) * 2 - 1, dy), q2.2)
    else ((0, dy), q.2)

/-- The per-step direction perturbation (map.go lines 176-201), applied
with probability 0.2 after a river cell is marked. -/
def perturbDir (dx dy : Int) (r : Rng) : (Int × Int) × Rng :=
  let p := randF r
  if p.1 < 2 then
    let q := randF p.2
    let s :=
      if q.1 < 5 then
        let i := randIntn 3 q.2
        ((clampDir (dx + ((i.1 : Int) - 1)), dy), i.2)
      else
        let i := randIntn 3 q.2
        ((dx, clampDir (dy + ((i.1 : Int) - 1))), i.2)
    if s.1.1 = 0 ∧ s.1.2 = 0 then
      let t := randF s.2
      if t.1 < 5 then
        let i := randIntn 2 t.2
        (((i.1 : Int) * 2 - 1, s.1.2), i.2)
      else
        let i := randIntn 2 t.2
        ((s.1.1, (i.1 : Int) * 2 - 1), i.2)
    else s
  else ((dx, dy), p.2)

/-- The river walk (map.go lines 167-204): up to `len` steps; each step
breaks if the next cell is out of bounds, otherwise marks it water and may
perturb the direction. -/
def riverWalk (w h : Nat) : Nat → BGrid → Int → Int → Int → Int → Rng → GenM (BGrid × Rng)
  | 0, m, _, _, _, _, r => pure (m, r)
  | len + 1, m, x, y, dx, dy, r =>
    let nx := x + dx
    let ny := y + dy
    if nx < 0 ∨ (w : Int) ≤ nx ∨ ny < 0 ∨ (h : Int) ≤ ny then pure (m, r)
    else do
      let _ ← liftO (getG m ny nx)
      let m2 := setG m ny nx true
      let s := perturbDir dx dy r
      riverWalk w h len m2 nx ny s.1.1 s.1.2 s.2

/-- Draw every selected river (map.go lines 146-206).  `total` is the
length of the whole origin list; for more than two origins each river is
drawn with probability 0.5 (the draw is skipped otherwise: short-circuit
`||`). -/
def drawRivers (w h : Nat) (total : Nat) : List (Int × Int) → BGrid → Rng → GenM (BGrid × Rng)
  | [], m, r => pure (m, r)
  | o :: rest, m, r =>
    if total ≤ 2 then do
      let pl := randIntn 8 r
      let d := riverDir pl.2
      let res ← riverWalk w h (pl.1 + 3) m o.1 o.2 d.1.1 d.1.2 d.2
      drawRivers w h total rest res.1 res.2
    else
      let p := randF r
      if p.1 < 5 then do
        let pl := randIntn 8 p.2
        let d := riverDir pl.2
        let res ← riverWalk w h (pl.1 + 3) m o.1 o.2 d.1.1 d.1.2 d.2
        drawRivers w h total rest res.1 res.2
      else drawRivers w h total rest m p.2

/-- Commit the boolean water grid to the map (map.go lines 208-220): each
water cell becomes Water on Base, enters the collision map and leaves the
grass set. -/
def applyWater (w h : Nat) (m : BGrid) (st : MapState) : GenM MapState :=
  (List.range h).foldlM
    (fun st1 (y : Nat) =>
      (List.range w).foldlM
        (fun st2 (x : Nat) => do
          let b ← liftO (getG m (y : Int) (x : Int))
          if b then do
            let _ ← liftO (getG st2.base (y : Int) (x : Int))
            let k := formatCoord (x : Int) (y : Int)
            pure { st2 with
              base := setG st2.base (y : Int) (x : Int) TileWater
              collisionMap := insertKey k st2.collisionMap
              grassTiles := eraseKey k st2.grassTiles }
          else pure st2)
        st1)
    st

/-- generateWaterBodies (map.go lines 80-221). -/
def generateWaterBodies (w h : Nat) (st : MapState) (r : Rng) : GenM (MapState × Rng) := do
  let s := seedWater w h r
  let m4 ← relaxWater w h s.1
  let og ← riverOrigins w h m4 s.2
  let dr ← drawRivers w h og.1.length og.1 m4 og.2
  let st2 ← applyWater w h dr.1 st
  pure (st2, dr.2)

/-! ## PathSynthesizer (generatePaths, map.go lines 224-273) -/

/-- The random path waypoints (map.go lines 229-234), in draw order. -/
def pathPoints (w h : Nat) : Nat → Rng → List (Int × Int) × Rng
  | 0, r => ([], r)
  | n + 1, r =>
    let px := randIntn w r
    let py := randIntn h px.2
    let rest := pathPoints w h n py.2
    (((px.1 : Int), (py.1 : Int)) :: rest.1, rest.2)

/-- Stamp one cell with Path unless it is Water (map.go lines 244-250 and
265-271): the cell is read first (Go panics there when out of bounds), a
non-water cell becomes Path and leaves the grass set. -/
def stampPath (st : MapState) (x y : Int) : GenM MapState := do
  let t ← liftO (getG st.base y x)
  if t ≠ TileWater then
    pure { st with
      base := setG st.base y x TilePath
      grassTiles := eraseKey (formatCoord x y) st.grassTiles }
  else pure st

/-- The per-segment walk (map.go lines 242-262).  The loop runs until the
walk reaches `(ex, ey)`; each iteration stamps the current cell and then
moves: toward the target in x with probability 0.7 when x differs (the
roll is consumed only in that case, matching the short-circuit `&&`),
otherwise toward the target in y; when x differs, the roll fails and y is
already aligned, the iteration moves nowhere.  The source loop is
unbounded; `fuel` bounds the embedding, `.error .fuelOut` marks fuel
exhaustion. -/
def pathWalk : Nat → Int → Int → Int → Int → MapState → Rng → GenM (MapState × Rng)
  | 0, ex, ey, x, y, st, r =>
    if x = ex ∧ y = ey then pure (st, r) else Except.error GenErr.fuelOut
  | fuel + 1, ex, ey, x, y, st, r =>
    if x = ex ∧ y = ey then pure (st, r)
    else do
      let st2 ← stampPath st x y
      if x < ex then
        let p := randF r
        if p.1 < 7 then pathWalk fuel ex ey (x + 1) y st2 p.2
        else if y < ey then pathWalk fuel ex ey x (y + 1) st2 p.2
        else if ey < y then pathWalk fuel ex ey x (y - 1) st2 p.2
        else pathWalk fuel ex ey x y st2 p.2
      else if ex < x then
        let p := randF r
        if p.1 < 7 then pathWalk fuel ex ey (x - 1) y st2 p.2
        else if y < ey then pathWalk fuel ex ey x (y + 1) st2 p.2
        else if ey < y then pathWalk fuel ex ey x (y - 1) st2 p.2
        else pathWalk fuel ex ey x y st2 p.2
      else
        if y < ey then pathWalk fuel ex ey x (y + 1) st2 r
        else if ey < y then pathWalk fuel ex ey x (y - 1) st2 r
        else pathWalk fuel ex ey x y st2 r

/-- Connect consecutive waypoints (map.go lines 237-272): walk each
segment, then stamp the segment's destination. -/
def pathSegs (fuel : Nat) : List (Int × Int) → MapState → Rng → GenM (MapState × Rng)
  | [], st, r => pure (st, r)
  | [_], st, r => pure (st, r)
  | p1 :: p2 :: rest, st, r => do
    let wres ← pathWalk fuel p2.1 p2.2 p1.1 p1.2 st r
    let st2 ← stampPath wres.1 p2.1 p2.2
    pathSegs fuel (p2 :: rest) st2 wres.2

/-- generatePaths (map.go lines 224-273): 2 + Intn 3 waypoints, connected
pairwise. -/
def generatePaths (w h fuel : Nat) (st : MapState) (r : Rng) : GenM (MapState × Rng) := do
  let pn := randIntn 3 r
  let pts := pathPoints w h (pn.1 + 2) pn.2
  pathSegs fuel pts.1 st pts.2

/-! ## MountainSynthesizer (generateMountains, map.go lines 276-324) -/

/-- The twenty-five offsets `(dy, dx)` of the 5x5 water scan
(map.go lines 291-299), dy outer. -/
def offs5 : List (Int × Int) :=
  (List.range 5).flatMap fun a =>
    (List.range 5).map fun b => (((a : Int) - 2), ((b : Int) - 2))

/-- Count water cells in the 5x5 block around a cluster center
(map.go lines 290-299); out-of-bounds offsets are skipped by the guard. -/
def waterCount5 (w h : Nat) (base : Grid) (cx cy : Int) : GenM Nat :=
  offs5.foldlM
    (fun acc d => do
      let nx := cx + d.2
      let ny := cy + d.1
      if 0 ≤ nx ∧ nx < (w : Int) ∧ 0 ≤ ny ∧ ny < (h : Int) then do
        let t ← liftO (getG base ny nx)
        pure (if t = TileWater then acc + 1 else acc)
      else pure acc)
    0

/-- The spot search (map.go lines 282-303): up to 20 attempts to find a
center whose 5x5 block holds at most 2 water cells; after 20 failures the
last sampled point is used. -/
def findSpot (w h : Nat) (base : Grid) : Nat → Int × Int → Rng → GenM ((Int × Int) × Rng)
  | 0, cur, r => pure (cur, r)
  | n + 1, _, r => do
    let px := randIntn (w - 4) r
    let py := randIntn (h - 4) px.2
    let mx : Int := (px.1 : Int) + 2
    let my : Int := (py.1 : Int) + 2
    let c ← waterCount5 w h base mx my
    if c ≤ 2 then pure ((mx, my), py.2)
    else findSpot w h base n (mx, my) py.2

/-- The cluster stamping loop (map.go lines 306-322): `size` random
offsets in `[-2,2] × [-2,2]`; an in-bounds non-water target becomes
Mountain, enters the collision map and leaves the grass set. -/
def mountainStamps (w h : Nat) : Nat → Int × Int → MapState → Rng → GenM (MapState × Rng)
  | 0, _, st, r => pure (st, r)
  | n + 1, c, st, r => do
    let pox := randIntn 5 r
    let poy := randIntn 5 pox.2
    let nx : Int := c.1 + ((pox.1 : Int) - 2)
    let ny : Int := c.2 + ((poy.1 : Int) - 2)
    if 0 ≤ nx ∧ nx < (w : Int) ∧ 0 ≤ ny ∧ ny < (h : Int) then do
      let t ← liftO (getG st.base ny nx)
      if t ≠ TileWater then
        let k := formatCoord nx ny
        mountainStamps w h n c
          { st with
            base := setG st.base ny nx TileMountain
            collisionMap := insertKey k st.collisionMap
            grassTiles := eraseKey k st.grassTiles }
          poy.2
      else mountainStamps w h n c st poy.2
    else mountainStamps w h n c st poy.2

/-- One cluster after another (map.go lines 279-323). -/
def mountainClusters (w h : Nat) : Nat → MapState → Rng → GenM (MapState × Rng)
  | 0, st, r => pure (st, r)
  | n + 1, st, r => do
    let fs ← findSpot w h st.base 20 (0, 0) r
    let pcs := randIntn 8 fs.2
    let ms ← mountainStamps w h (pcs.1 + 5) fs.1 st pcs.2
    mountainClusters w h n ms.1 ms.2

/-- generateMountains (map.go lines 276-324): 1 + Intn 3 clusters. -/
def generateMountains (w h : Nat) (st : MapState) (r : Rng) : GenM (MapState × Rng) := do
  let pn := randIntn 3 r
  mountainClusters w h (pn.1 + 1) st pn.2

/-! ## BridgeSynthesizer (placeBridges, map.go lines 327-574) -/

/-- The abs helper of map.go lines 577-582. -/
def goAbs (x : Int) : Int :=
  if x < 0 then -x else x

/-- The min helper of map.go lines 585-590. -/
def goMin (a b : Int) : Int :=
  if a < b then a else b

/-- A bridge candidate (map.go lines 329-333): start of the water run,
direction (0 horizontal, 1 vertical), run length. -/
structure Cand where
  x : Nat
  y : Nat
  dir : Nat
  len : Nat
deriving DecidableEq, Repr

/-- A scored candidate (map.go lines 456-461). -/
structure SBridge where
  x : Nat
  y : Nat
  dir : Nat
  len : Nat
  score : Int
deriving DecidableEq, Repr

/-- Advance `e` along row `y` while `e < bound` and the cell is Water
(the run scans of map.go lines 343-346, 508-511).  The fuel only bounds
the recursion; with fuel at least `bound`, it never ends the loop early
because `e` grows by one per step and the loop needs `e < bound`. -/
def scanRun (bound : Nat) (base : Grid) (y : Int) : Nat → Nat → GenM Nat
  | 0, e => pure e
  | fuel + 1, e =>
    if e < bound then do
      let t ← liftO (getG base y (e : Int))
      if t = TileWater then scanRun bound base y fuel (e + 1) else pure e
    else pure e

/-- Column version of `scanRun` (map.go lines 402-405, 541-544). -/
def scanRunY (bound : Nat) (base : Grid) (x : Int) : Nat → Nat → GenM Nat
  | 0, e => pure e
  | fuel + 1, e =>
    if e < bound then do
      let t ← liftO (getG base (e : Int) x)
      if t = TileWater then scanRunY bound base x fuel (e + 1) else pure e
    else pure e

/-- The horizontal candidate test at one cell (map.go lines 338-391):
land-water boundary, run of length 2..5 ending before land, and the
two solidity checks. -/
def hCandAt (w h : Nat) (base : Grid) (x y : Nat) : GenM (List Cand) := do
  let t1 ← liftO (getG base (y : Int) ((x : Int) - 1))
  if t1 ≠ TileWater then do
    let t2 ← liftO (getG base (y : Int) (x : Int))
    if t2 = TileWater then do
      let endX ← scanRun (w - 1) base (y : Int) w x
      let waterLength := endX - x
      if endX < w then do
        let t3 ← liftO (getG base (y : Int) (endX : Int))
        if t3 ≠ TileWater ∧ 2 ≤ waterLength ∧ waterLength ≤ 5 then do
          let leftSolid ←
            if 0 ≤ (x : Int) - 1 ∧ 0 ≤ (y : Int) - 1 ∧ (y : Int) + 1 < (h : Int) then do
              let a ← liftO (getG base ((y : Int) - 1) ((x : Int) - 1))
              let b ← liftO (getG base ((y : Int) + 1) ((x : Int) - 1))
              let landCount := (if a ≠ TileWater then 1 else 0) + (if b ≠ TileWater then 1 else 0)
              pure (decide (1 ≤ landCount))
            else pure false
          let rightSolid ←
            if endX < w ∧ 0 ≤ (y : Int) - 1 ∧ (y : Int) + 1 < (h : Int) then do
              let a ← liftO (getG base ((y : Int) - 1) (endX : Int))
              let b ← liftO (getG base ((y : Int) + 1) (endX : Int))
              let landCount := (if a ≠ TileWater then 1 else 0) + (if b ≠ TileWater then 1 else 0)
              pure (decide (1 ≤ landCount))
            else pure false
          if leftSolid ∧ rightSolid then
            pure [{ x := x, y := y, dir := 0, len := waterLength }]
          else pure []
        else pure []
      else pure []
    else pure []
  else pure []

/-- The vertical candidate test at one cell (map.go lines 398-450). -/
def vCandAt (w h : Nat) (base : Grid) (x y : Nat) : GenM (List Cand) := do
  let t1 ← liftO (getG base ((y : Int) - 1) (x : Int))
  if t1 ≠ TileWater then do
    let t2 ← liftO (getG base (y : Int) (x : Int))
    if t2 = TileWater then do
      let endY ← scanRunY (h - 1) base (x : Int) h y
      let waterLength := endY - y
      if endY < h then do
        let t3 ← liftO (getG base (endY : Int) (x : Int))
        if t3 ≠ TileWater ∧ 2 ≤ waterLength ∧ waterLength ≤ 5 then do
          let topSolid ←
            if 0 ≤ (y : Int) - 1 ∧ 0 ≤ (x : Int) - 1 ∧ (x : Int) + 1 < (w : Int) then do
              let a ← liftO (getG base ((y : Int) - 1) ((x : Int) - 1))
              let b ← liftO (getG base ((y : Int) - 1) ((x : Int) + 1))
              let landCount := (if a ≠ TileWater then 1 else 0) + (if b ≠ TileWater then 1 else 0)
              pure (decide (1 ≤ landCount))
            else pure false
          let bottomSolid ←
            if endY < h ∧ 0 ≤ (x : Int) - 1 ∧ (x : Int) + 1 < (w : Int) then do
              let a ← liftO (getG base (endY : Int) ((x : Int) - 1))
              let b ← liftO (getG base (endY : Int) ((x : Int) + 1))
              let landCount := (if a ≠ TileWater then 1 else 0) + (if b ≠ TileWater then 1 else 0)
              pure (decide (1 ≤ landCount))
            else pure false
          if topSolid ∧ bottomSolid then
            pure [{ x := x, y := y, dir := 1, len := waterLength }]
          else pure []
        else pure []
      else pure []
    else pure []
  else pure []

/-- Row scan for horizontal candidates (map.go lines 336-393):
`1 ≤ y < h-1` outer, `1 ≤ x < w-2` inner. -/
def hCands (w h : Nat) (base : Grid) : GenM (List Cand) :=
  (List.range' 1 (h - 2)).foldlM
    (fun acc y =>
      (List.range' 1 (w - 3)).foldlM
        (fun acc2 x => do
          let cs ← hCandAt w h base x y
          pure (acc2 ++ cs))
        acc)
    []

/-- Column scan for vertical candidates (map.go lines 396-453):
`1 ≤ x < w-1` outer, `1 ≤ y < h-2` inner. -/
def vCands (w h : Nat) (base : Grid) : GenM (List Cand) :=
  (List.range' 1 (w - 2)).foldlM
    (fun acc x =>
      (List.range' 1 (h - 3)).foldlM
        (fun acc2 y => do
          let cs ← vCandAt w h base x y
          pure (acc2 ++ cs))
        acc)
    []

/-- Candidate scoring (map.go lines 463-485). -/
def scoreCand (w h : Nat) (c : Cand) : SBridge :=
  let lengthScore : Int := (c.len : Int) * 10
  let centerX : Int := (w : Int) / 2
  let centerY : Int := (h : Int) / 2
  let distX := goAbs ((c.x : Int) - centerX)
  let distY := goAbs ((c.y : Int) - centerY)
  let centralityScore := max 0 (20 - (distX + distY))
  { x := c.x, y := c.y, dir := c.dir, len := c.len, score := lengthScore + centralityScore }

/-- Insertion step of the score sort. -/
def insOrd (b : SBridge) : List SBridge → List SBridge
  | [] => [b]
  | c :: rest => if c.score < b.score then b :: c :: rest else c :: insOrd b rest

/-- `sort.Slice` by descending score (map.go lines 488-490).  The Go sort
is unstable and the order of equal scores is unspecified; insertion sort
realizes one admissible order. -/
def sortByScore : List SBridge → List SBridge
  | [] => []
  | b :: rest => insOrd b (sortByScore rest)

/-- The closed integer interval `[lo, hi]` as a list. -/
def intRange (lo hi : Int) : List Int :=
  (List.range (hi + 1 - lo).toNat).map fun (i : Nat) => lo + (i : Int)

/-- The proximity scan of the placement loop (map.go lines 513-526,
546-559): is any cell of the rectangle already in `bridgeMap`?  The
source breaks at the first hit; the any-fold yields the same value with
no observable effect. -/
def anyBridgeKey (bm : KeySet) (xlo xhi ylo yhi : Int) : Bool :=
  (intRange ylo yhi).any fun yy =>
    (intRange xlo xhi).any fun xx => bm.contains (formatCoord xx yy)

/-- Stamp a horizontal bridge run (map.go lines 529-536): cells
`x, x+1, ..., x+n-1` of row `y` become Bridge on the Overlay layer, enter
`bridgeTiles` and `bridgeMap` and leave the collision map. -/
def stampRunH (y : Int) : Nat → Nat → MapState → KeySet → GenM (MapState × KeySet)
  | _, 0, st, bm => pure (st, bm)
  | x, n + 1, st, bm => do
    let _ ← liftO (getG st.overlay y (x : Int))
    let k := formatCoord (x : Int) y
    stampRunH y (x + 1) n
      { st with
        overlay := setG st.overlay y (x : Int) TileBridge
        bridgeTiles := insertKey k st.bridgeTiles
        collisionMap := eraseKey k st.collisionMap }
      (insertKey k bm)

/-- Stamp a vertical bridge run (map.go lines 562-569). -/
def stampRunV (x : Int) : Nat → Nat → MapState → KeySet → GenM (MapState × KeySet)
  | _, 0, st, bm => pure (st, bm)
  | y, n + 1, st, bm => do
    let _ ← liftO (getG st.overlay (y : Int) x)
    let k := formatCoord x (y : Int)
    stampRunV x (y + 1) n
      { st with
        overlay := setG st.overlay (y : Int) x TileBridge
        bridgeTiles := insertKey k st.bridgeTiles
        collisionMap := eraseKey k st.collisionMap }
      (insertKey k bm)

/-- The greedy placement loop (map.go lines 499-573) over the sorted
candidates: stop after `numB` placements; re-scan the water run from the
current Base layer, reject the candidate when the 2-cell buffer rectangle
meets `bridgeMap`, stamp it otherwise.  Each accepted bridge is also
logged in the ghost `placedBridges` field. -/
def placeLoop (w h : Nat) : List SBridge → Nat → Nat → KeySet → MapState → GenM (MapState × KeySet)
  | [], _, _, bm, st => pure (st, bm)
  | b :: rest, placed, numB, bm, st =>
    if placed < numB then
      if b.dir = 0 then do
        let endX ← scanRun w st.base (b.y : Int) (w + 1) b.x
        let tc := anyBridgeKey bm ((b.x : Int) - 2) ((endX : Int) + 2)
          ((b.y : Int) - 2) ((b.y : Int) + 2)
        if tc then placeLoop w h rest placed numB bm st
        else do
          let s2 ← stampRunH (b.y : Int) b.x (endX - b.x) st bm
          let st3 := { s2.1 with
            placedBridges := s2.1.placedBridges ++ [⟨b.x, b.y, 0, endX⟩] }
          placeLoop w h rest (placed + 1) numB s2.2 st3
      else do
        let endY ← scanRunY h st.base (b.x : Int) (h + 1) b.y
        let tc := anyBridgeKey bm ((b.x : Int) - 2) ((b.x : Int) + 2)
          ((b.y : Int) - 2) ((endY : Int) + 2)
        if tc then placeLoop w h rest placed numB bm st
        else do
          let s2 ← stampRunV (b.x : Int) b.y (endY - b.y) st bm
          let st3 := { s2.1 with
            placedBridges := s2.1.placedBridges ++ [⟨b.x, b.y, 1, endY⟩] }
          placeLoop w h rest (placed + 1) numB s2.2 st3
    else pure (st, bm)

/-- placeBridges (map.go lines 327-574): collect and score candidates,
sort by descending score, then place at most `min (number of candidates) 3`
of them greedily.  The phase consumes no randomness. -/
def placeBridges (w h : Nat) (st : MapState) (r : Rng) : GenM (MapState × Rng) := do
  let hc ← hCands w h st.base
  let vc ← vCands w h st.base
  let sorted := sortByScore ((hc ++ vc).map (scoreCand w h))
  let numB := (goMin (sorted.length : Int) 3).toNat
  let res ← placeLoop w h sorted 0 numB [] st
  pure (res.1, r)

/-! ## The full generation pass (initMap, map.go lines 41-77) -/

/-- The generation pass over a `w × h` grid: water, paths, mountains,
bridges, in this order, threading the random stream. -/
def generateMap (w h fuel : Nat) (r : Rng) : GenM (MapState × Rng) := do
  let s1 ← generateWaterBodies w h (initState w h) r
  let s2 ← generatePaths w h fuel s1.1 s1.2
  let s3 ← generateMountains w h s2.1 s2.2
  placeBridges w h s3.1 s3.2

/-- initMap (map.go line 42): the game generates a 20 × 15 map. -/
def initMap (fuel : Nat) (r : Rng) : GenM (MapState × Rng) :=
  generateMap 20 15 fuel r

/-! ## Well-formedness and invariant predicates -/

/-- A layer is well formed when it has `h` rows of `w` cells. -/
def gridWF {α : Type} (w h : Nat) (g : List (List α)) : Prop :=
  g.length = h ∧ ∀ row ∈ g, row.length = w

/-- Both tile layers well formed. -/
def stWF (w h : Nat) (st : MapState) : Prop :=
  gridWF w h st.base ∧ gridWF w h st.overlay

/-- Membership in `grassTiles` implies a Grass base tile (claim C3). -/
def InvGrass (w h : Nat) (st : MapState) : Prop :=
  ∀ x y : Nat, x < w → y < h →
    formatCoord (x : Int) (y : Int) ∈ st.grassTiles →
    getG st.base (y : Int) (x : Int) = some TileGrass

/-- Membership in `collisionMap` implies a Water base tile (the invariant
of the stages before generateMountains). -/
def InvCollWater (w h : Nat) (st : MapState) : Prop :=
  ∀ x y : Nat, x < w → y < h →
    formatCoord (x : Int) (y : Int) ∈ st.collisionMap →
    getG st.base (y : Int) (x : Int) = some TileWater

/-- Membership in `collisionMap` implies a Water or Mountain base tile
(claim C2). -/
def InvColl (w h : Nat) (st : MapState) : Prop :=
  ∀ x y : Nat, x < w → y < h →
    formatCoord (x : Int) (y : Int) ∈ st.collisionMap →
    getG st.base (y : Int) (x : Int) = some TileWater ∨
    getG st.base (y : Int) (x : Int) = some TileMountain

/-- No key is in both `bridgeTiles` and `collisionMap` (claim C2). -/
def BridgeDisj (st : MapState) : Prop :=
  ∀ k ∈ st.bridgeTiles, k ∉ st.collisionMap

/-- Membership in `bridgeTiles` implies a Water base tile (claim C4). -/
def InvBridgeWater (w h : Nat) (st : MapState) : Prop :=
  ∀ x y : Nat, x < w → y < h →
    formatCoord (x : Int) (y : Int) ∈ st.bridgeTiles →
    getG st.base (y : Int) (x : Int) = some TileWater

/-- The footprint cells `(x, y)` of a placed bridge. -/
def pbCells (pb : PlacedBridge) : List (Nat × Nat) :=
  if pb.dir = 0 then (List.range' pb.x (pb.endC - pb.x)).map fun i => (i, pb.y)
  else (List.range' pb.y (pb.endC - pb.y)).map fun i => (pb.x, i)

/-- Chebyshev distance between two cells. -/
def chebDist (a b : Nat × Nat) : Int :=
  max (goAbs ((a.1 : Int) - (b.1 : Int))) (goAbs ((a.2 : Int) - (b.2 : Int)))

/-- Every cell of one bridge is more than 2 away (Chebyshev) from every
cell of any other placed bridge (claim C5). -/
def BridgesSeparated (l : List PlacedBridge) : Prop :=
  l.Pairwise fun p q => ∀ c1 ∈ pbCells p, ∀ c2 ∈ pbCells q, 2 < chebDist c1 c2

/-- A placed bridge is valid on the final state (claim C4): every
footprint cell has a Water base tile, is in `bridgeTiles` and not in
`collisionMap`, and the two cells immediately beyond the ends of the run
exist and are not Water. -/
def BridgeValid (st : MapState) (pb : PlacedBridge) : Prop :=
  (∀ c ∈ pbCells pb,
    getG st.base (c.2 : Int) (c.1 : Int) = some TileWater ∧
    formatCoord (c.1 : Int) (c.2 : Int) ∈ st.bridgeTiles ∧
    formatCoord (c.1 : Int) (c.2 : Int) ∉ st.collisionMap) ∧
  (pb.dir = 0 →
    (∃ t, getG st.base (pb.y : Int) ((pb.x : Int) - 1) = some t ∧ t ≠ TileWater) ∧
    (∃ t, getG st.base (pb.y : Int) (pb.endC : Int) = some t ∧ t ≠ TileWater)) ∧
  (pb.dir ≠ 0 →
    (∃ t, getG st.base ((pb.y : Int) - 1) (pb.x : Int) = some t ∧ t ≠ TileWater) ∧
    (∃ t, getG st.base (pb.endC : Int) (pb.x : Int) = some t ∧ t ≠ TileWater))

/-- What the horizontal candidate scan guarantees about a recorded
candidate: a water run of length `len` starting at `(x, y)`, flanked by
non-water cells, strictly inside the grid. -/
def candOKH (w h : Nat) (base : Grid) (x y len : Nat) : Prop :=
  1 ≤ x ∧ 1 ≤ y ∧ y + 1 < h ∧ 2 ≤ len ∧ x + len < w ∧
  (∀ i, x ≤ i → i < x + len → getG base (y : Int) (i : Int) = some TileWater) ∧
  (∃ t, getG base (y : Int) ((x : Int) - 1) = some t ∧ t ≠ TileWater) ∧
  (∃ t, getG base (y : Int) ((x + len : Nat) : Int) = some t ∧ t ≠ TileWater)

/-- Vertical counterpart of `candOKH`. -/
def candOKV (w h : Nat) (base : Grid) (x y len : Nat) : Prop :=
  1 ≤ y ∧ 1 ≤ x ∧ x + 1 < w ∧ 2 ≤ len ∧ y + len < h ∧
  (∀ i, y ≤ i → i < y + len → getG base (i : Int) (x : Int) = some TileWater) ∧
  (∃ t, getG base ((y : Int) - 1) (x : Int) = some t ∧ t ≠ TileWater) ∧
  (∃ t, getG base ((y + len : Nat) : Int) (x : Int) = some t ∧ t ≠ TileWater)

/-- The scan invariant for a scored candidate. -/
def candOK (w h : Nat) (base : Grid) (b : SBridge) : Prop :=
  (b.dir = 0 → candOKH w h base b.x b.y b.len) ∧
  (b.dir ≠ 0 → candOKV w h base b.x b.y b.len)

/-- The frame of generatePaths (claim C6): the Overlay layer, the
collision map, the bridge set and the bridge log are untouched, Water
base cells are preserved, every changed base cell became Path (its old
value was not Water) and its key is no longer in the grass set, and the
grass set only shrinks. -/
def PathFrame (st st2 : MapState) : Prop :=
  st2.overlay = st.overlay ∧
  st2.collisionMap = st.collisionMap ∧
  st2.bridgeTiles = st.bridgeTiles ∧
  st2.placedBridges = st.placedBridges ∧
  (∀ y x : Int, getG st.base y x = some TileWater → getG st2.base y x = some TileWater) ∧
  (∀ y x : Int, getG st2.base y x ≠ getG st.base y x →
    getG st2.base y x = some TilePath ∧
    getG st.base y x ≠ some TileWater ∧
    formatCoord x y ∉ st2.grassTiles) ∧
  (∀ k, k ∈ st2.grassTiles → k ∈ st.grassTiles)

/-! ## Pure views of the neighbor count (for claim C1) -/

/-- One offset target is in bounds and water. -/
def offsetWater (w h : Nat) (m : BGrid) (x y : Int) (d : Int × Int) : Bool :=
  decide (0 ≤ x + d.2 ∧ x + d.2 < (w : Int) ∧ 0 ≤ y + d.1 ∧ y + d.1 < (h : Int)) &&
  decide (getG m (y + d.1) (x + d.2) = some true)

/-- The value the source's neighbor-count loop computes: the number of
in-bounds water targets over all nine offsets, the cell itself included. -/
def nbrCount (w h : Nat) (m : BGrid) (x y : Int) : Nat :=
  (nbrOffsets.filter (offsetWater w h m x y)).length

/-- The eight proper Moore offsets `(dy, dx)`, in source scan order,
without `(0, 0)`. -/
def properOffsets : List (Int × Int) :=
  [(-1, -1), (-1, 0), (-1, 1), (0, -1), (0, 1), (1, -1), (1, 0), (1, 1)]

/-- Follows the words of the spec for claim C1: the number of water cells
among the up-to-8 Moore neighbors of the cell (the cell itself not
counted; out-of-grid neighbors missing). -/
def mooreWaterCount (w h : Nat) (m : BGrid) (x y : Int) : Nat :=
  (properOffsets.filter (offsetWater w h m x y)).length

/-- Is the cell itself in bounds and water (contributes 1 to the source's
count)? -/
def selfWater (w h : Nat) (m : BGrid) (x y : Int) : Nat :=
  if offsetWater w h m x y (0, 0) then 1 else 0

/-- The pure value of one cellular-automaton pass: row `y`, column `x`
holds `4 ≤ nbrCount`. -/
def caGrid (w h : Nat) (m : BGrid) : BGrid :=
  (List.range h).map fun (y : Nat) =>
    (List.range w).map fun (x : Nat) => decide (4 ≤ nbrCount w h m (x : Int) (y : Int))

/-! ## Concrete inputs for witnesses and counterexamples -/

/-- The all-zeros random stream. -/
def rzero : Rng := ⟨fun _ => 0, 0⟩

/-- The all-nines random stream: every Float32 comparison draw is 9, so
every `rand.Float32() < 0.7` roll fails. -/
def rnine : Rng := ⟨fun _ => 9, 0⟩

/-- A 20 × 15 water grid holding exactly a 2 × 2 water block in the
corner: cell (0,0) is water with exactly 3 proper Moore neighbors that
are water. -/
def cornerBlock : BGrid :=
  (List.range 15).map fun y => (List.range 20).map fun x => decide (x < 2 ∧ y < 2)

/-- A 7 × 7 base layer holding two horizontal two-cell water straits at
rows 1 and 5, each flanked by grass; used to exercise placeBridges. -/
def twoStraitBase : Grid :=
  [[0, 0, 0, 0, 0, 0, 0],
   [0, 2, 2, 0, 0, 0, 0],
   [0, 0, 0, 0, 0, 0, 0],
   [0, 0, 0, 0, 0, 0, 0],
   [0, 0, 0, 0, 0, 0, 0],
   [0, 2, 2, 0, 0, 0, 0],
   [0, 0, 0, 0, 0, 0, 0]]

/-- The state carrying `twoStraitBase`. -/
def twoStraitState : MapState :=
  { base := twoStraitBase
    overlay := initLayers 7 7
    grassTiles := []
    bridgeTiles := []
    collisionMap := []
    placedBridges := [] }

/-! ## Lemmas: key sets and formatCoord -/

theorem mem_insertKey {a k : Key} {s : KeySet} :
    a ∈ insertKey k s ↔ a = k ∨ a ∈ s := by
  unfold insertKey
  by_cases h : k ∈ s
  · rw [if_pos h]
    exact ⟨Or.inr, fun h2 => h2.elim (fun e => e ▸ h) id⟩
  · rw [if_neg h]
    exact List.mem_cons

theorem mem_eraseKey {a k : Key} {s : KeySet} :
    a ∈ eraseKey k s ↔ a ∈ s ∧ a ≠ k := by
  unfold eraseKey
  rw [List.mem_filter]
  simp [bne_iff_ne]

theorem utf8Bytes_small {n : Nat} (h : n < 128) : utf8Bytes n = [n] := by
  unfold utf8Bytes
  rw [if_pos h]

theorem goRuneString_small {n : Nat} (h : n < 128) :
    goRuneString (n : Int) = [n] := by
  unfold goRuneString
  rw [if_neg, Int.toNat_natCast, utf8Bytes_small h]
  push_neg
  refine ⟨by omega, by omega, fun h2 => by omega⟩

theorem formatCoord_small {x y : Nat} (hx : x < 128) (hy : y < 128) :
    formatCoord (x : Int) (y : Int) = [x, 44, y] := by
  unfold formatCoord
  rw [goRuneString_small hx, goRuneString_small hy]
  rfl

theorem formatCoord_inj {x1 y1 x2 y2 : Nat}
    (hx1 : x1 < 128) (hy1 : y1 < 128) (hx2 : x2 < 128) (hy2 : y2 < 128)
    (h : formatCoord (x1 : Int) (y1 : Int) = formatCoord (x2 : Int) (y2 : Int)) :
    x1 = x2 ∧ y1 = y2 := by
  rw [formatCoord_small hx1 hy1, formatCoord_small hx2 hy2] at h
  have h1 := List.head_eq_of_cons_eq h
  have h2 := List.tail_eq_of_cons_eq h
  have h3 := List.tail_eq_of_cons_eq h2
  have h4 := List.head_eq_of_cons_eq h3
  exact ⟨h1, h4⟩

theorem formatCoord_injE (a b c d : Nat)
    (h1 : a < 128) (h2 : b < 128) (h3 : c < 128) (h4 : d < 128)
    (h : formatCoord (a : Int) (b : Int) = formatCoord (c : Int) (d : Int)) :
    a = c ∧ b = d :=
  formatCoord_inj h1 h2 h3 h4 h

/-! ## Lemmas: grids -/

theorem getG_eq_some {α : Type} {w h : Nat} {g : List (List α)} (hg : gridWF w h g)
    {y x : Int} (hy0 : 0 ≤ y) (hyh : y < (h : Int)) (hx0 : 0 ≤ x) (hxw : x < (w : Int)) :
    ∃ v, getG g y x = some v := by
  have hyl : y.toNat < g.length := by rw [hg.1]; omega
  unfold getG
  rw [if_pos ⟨hy0, hx0⟩, List.getElem?_eq_getElem hyl, Option.some_bind]
  have hrow : g[y.toNat] ∈ g := List.getElem_mem hyl
  have hrl : (g[y.toNat]).length = w := hg.2 _ hrow
  have hxl : x.toNat < (g[y.toNat]).length := by rw [hrl]; omega
  rw [List.getElem?_eq_getElem hxl]
  exact ⟨_, rfl⟩

theorem getG_get {α : Type} {g : List (List α)} {y x : Int} {v : α}
    (hv : getG g y x = some v) :
    0 ≤ y ∧ 0 ≤ x ∧ ∃ row, g[y.toNat]? = some row ∧ row[x.toNat]? = some v := by
  unfold getG at hv
  by_cases hc : 0 ≤ y ∧ 0 ≤ x
  · rw [if_pos hc] at hv
    cases hrow : g[y.toNat]? with
    | none => rw [hrow] at hv; cases hv
    | some row =>
      rw [hrow, Option.some_bind] at hv
      exact ⟨hc.1, hc.2, row, rfl, hv⟩
  · rw [if_neg hc] at hv; cases hv

theorem getG_bounds {α : Type} {w h : Nat} {g : List (List α)} (hg : gridWF w h g)
    {y x : Int} {v : α} (hv : getG g y x = some v) :
    0 ≤ y ∧ y < (h : Int) ∧ 0 ≤ x ∧ x < (w : Int) := by
  obtain ⟨hy0, hx0, row, hrow, hcell⟩ := getG_get hv
  have h1 : y.toNat < g.length := by
    by_contra hge
    rw [List.getElem?_eq_none (by omega)] at hrow
    cases hrow
  have hmem : row ∈ g := by
    rw [List.getElem?_eq_getElem h1] at hrow
    cases hrow
    exact List.getElem_mem h1
  have h2 : x.toNat < row.length := by
    by_contra hge
    rw [List.getElem?_eq_none (by omega)] at hcell
    cases hcell
  have hrl : row.length = w := hg.2 _ hmem
  rw [hg.1] at h1
  rw [hrl] at h2
  omega

theorem gridWF_setG {α : Type} {w h : Nat} {g : List (List α)} (hg : gridWF w h g)
    {y : Int} (hy0 : 0 ≤ y) (hyh : y < (h : Int)) (x : Int) (v : α) :
    gridWF w h (setG g y x v) := by
  have hyl : y.toNat < g.length := by rw [hg.1]; omega
  constructor
  · unfold setG
    rw [List.length_set, hg.1]
  · intro row hrow
    unfold setG at hrow
    rcases List.mem_or_eq_of_mem_set hrow with h1 | h2
    · exact hg.2 _ h1
    · rw [h2, List.length_set]
      have : g.getD y.toNat [] = g[y.toNat] := List.getD_eq_getElem g [] hyl
      rw [this]
      exact hg.2 _ (List.getElem_mem hyl)

theorem getG_setG_self {α : Type} {w h : Nat} {g : List (List α)} (hg : gridWF w h g)
    {y x : Int} (hy0 : 0 ≤ y) (hyh : y < (h : Int)) (hx0 : 0 ≤ x) (hxw : x < (w : Int))
    (v : α) : getG (setG g y x v) y x = some v := by
  have hyl : y.toNat < g.length := by rw [hg.1]; omega
  have hrowD : g.getD y.toNat [] = g[y.toNat] := List.getD_eq_getElem g [] hyl
  have hrl : (g[y.toNat]).length = w := hg.2 _ (List.getElem_mem hyl)
  unfold getG setG
  rw [if_pos ⟨hy0, hx0⟩]
  rw [List.getElem?_set_self hyl, Option.some_bind]
  rw [hrowD, List.getElem?_set_self (by rw [hrl]; omega)]

theorem getG_setG_ne {α : Type} {w h : Nat} {g : List (List α)} (hg : gridWF w h g)
    {y x : Int} (hy0 : 0 ≤ y) (hyh : y < (h : Int)) (hx0 : 0 ≤ x) (_hxw : x < (w : Int))
    (v : α) {y2 x2 : Int} (hne : ¬(y2 = y ∧ x2 = x)) :
    getG (setG g y x v) y2 x2 = getG g y2 x2 := by
  have hyl : y.toNat < g.length := by rw [hg.1]; omega
  have hrowD : g.getD y.toNat [] = g[y.toNat] := List.getD_eq_getElem g [] hyl
  by_cases hc : 0 ≤ y2 ∧ 0 ≤ x2
  · by_cases hyy : y2.toNat = y.toNat
    · have hy2 : y2 = y := by omega
      have hxx : x2.toNat ≠ x.toNat := by
        intro hx
        exact hne ⟨hy2, by omega⟩
      unfold getG setG
      rw [if_pos hc, if_pos hc, hyy]
      rw [List.getElem?_set_self hyl, Option.some_bind]
      rw [List.getElem?_eq_getElem hyl, Option.some_bind, hrowD]
      rw [List.getElem?_set_ne (by omega)]
    · unfold getG setG
      rw [if_pos hc, if_pos hc]
      rw [List.getElem?_set_ne (by omega)]
  · unfold getG setG
    rw [if_neg hc, if_neg hc]

theorem gridWF_initLayers (w h : Nat) : gridWF w h (initLayers w h) := by
  constructor
  · exact List.length_replicate h _
  · intro row hrow
    rw [List.eq_of_mem_replicate hrow]
    exact List.length_replicate w _

theorem getG_initLayers {w h : Nat} {y x : Int} {v : Nat}
    (hv : getG (initLayers w h) y x = some v) : v = TileGrass := by
  obtain ⟨_, _, row, hrow, hcell⟩ := getG_get hv
  unfold initLayers at hrow
  rw [List.getElem?_replicate] at hrow
  by_cases hc : y.toNat < h
  · rw [if_pos hc] at hrow
    cases hrow
    rw [List.getElem?_replicate] at hcell
    by_cases hc2 : x.toNat < w
    · rw [if_pos hc2] at hcell
      cases hcell
      rfl
    · rw [if_neg hc2] at hcell
      cases hcell
  · rw [if_neg hc] at hrow
    cases hrow

/-! ## Lemmas: monadic folds -/

theorem foldlM_ok_ind {α β : Type} {P : β → Prop} {f : β → α → GenM β} :
    ∀ {l : List α} {b0 res : β}, l.foldlM f b0 = Except.ok res → P b0 →
    (∀ b a b2, a ∈ l → P b → f b a = Except.ok b2 → P b2) → P res := by
  intro l
  induction l with
  | nil =>
    intro b0 res hrun hP _
    cases hrun
    exact hP
  | cons a l ih =>
    intro b0 res hrun hP hstep
    rw [List.foldlM_cons] at hrun
    cases hfa : f b0 a with
    | error e => rw [hfa] at hrun; cases hrun
    | ok b1 =>
      rw [hfa] at hrun
      exact ih hrun (hstep b0 a b1 (List.mem_cons_self _ _) hP hfa)
        fun b a2 b2 ha => hstep b a2 b2 (List.mem_cons_of_mem _ ha)

theorem foldlM_ok_total {α β : Type} {P : β → Prop} {f : β → α → GenM β} :
    ∀ {l : List α} {b0 : β}, P b0 →
    (∀ b a, a ∈ l → P b → ∃ b2, f b a = Except.ok b2 ∧ P b2) →
    ∃ res, l.foldlM f b0 = Except.ok res ∧ P res := by
  intro l
  induction l with
  | nil =>
    intro b0 hP _
    exact ⟨b0, rfl, hP⟩
  | cons a l ih =>
    intro b0 hP hstep
    obtain ⟨b1, hb1, hP1⟩ := hstep b0 a (List.mem_cons_self _ _) hP
    obtain ⟨res, hres, hPr⟩ := ih hP1 fun b a2 ha => hstep b a2 (List.mem_cons_of_mem _ ha)
    refine ⟨res, ?_, hPr⟩
    rw [List.foldlM_cons, hb1]
    exact hres

theorem foldlM_ok_totalE {α β : Type} {P : β → Prop} {f : β → α → GenM β}
    (l : List α) (b : β) (hP : P b)
    (hstep : ∀ c a, a ∈ l → P c → ∃ b2, f c a = Except.ok b2 ∧ P b2) :
    ∃ res, l.foldlM f b = Except.ok res ∧ P res :=
  foldlM_ok_total hP hstep

theorem mapM_ok_of {α β : Type} (f : α → GenM β) (g : α → β) :
    ∀ (l : List α), (∀ a ∈ l, f a = Except.ok (g a)) →
    l.mapM f = Except.ok (l.map g) := by
  intro l
  induction l with
  | nil => intro _; rfl
  | cons a l ih =>
    intro hall
    rw [List.mapM_cons, hall a (List.mem_cons_self _ _),
      ih fun a2 ha => hall a2 (List.mem_cons_of_mem _ ha)]
    rfl

/-! ## Lemmas: the water synthesizer -/

theorem seedRow_length (n : Nat) (r : Rng) : (seedRow n r).1.length = n := by
  induction n generalizing r with
  | zero => rfl
  | succ n ih =>
    unfold seedRow
    simp [ih]

theorem seedWater_WF (w : Nat) : ∀ (n : Nat) (r : Rng), gridWF w n (seedWater w n r).1 := by
  intro n
  induction n with
  | zero => intro r; exact ⟨rfl, by intro row hrow; cases hrow⟩
  | succ n ih =>
    intro r
    unfold seedWater
    constructor
    · simp [(ih _).1]
    · intro row hrow
      rcases List.mem_cons.mp hrow with h1 | h2
      · rw [h1]; exact seedRow_length w r
      · exact (ih _).2 _ h2

theorem ok_bind {α β : Type} (a : α) (f : α → GenM β) :
    (Except.ok a >>= f) = f a := rfl

theorem waterNeighbors_fold {w h : Nat} {m : BGrid} (hm : gridWF w h m) (x y : Int) :
    ∀ (l : List (Int × Int)) (acc : Nat),
    l.foldlM
      (fun acc d => do
        let nx := x + d.2
        let ny := y + d.1
        if 0 ≤ nx ∧ nx < (w : Int) ∧ 0 ≤ ny ∧ ny < (h : Int) then do
          let b ← liftO (getG m ny nx)
          pure (if b then acc + 1 else acc)
        else
          pure acc)
      acc = Except.ok (acc + (l.filter (offsetWater w h m x y)).length) := by
  intro l
  induction l with
  | nil => intro acc; rfl
  | cons d l ih =>
    intro acc
    rw [List.foldlM_cons, List.filter_cons]
    by_cases hg : 0 ≤ x + d.2 ∧ x + d.2 < (w : Int) ∧ 0 ≤ y + d.1 ∧ y + d.1 < (h : Int)
    · obtain ⟨b, hb⟩ := getG_eq_some hm hg.2.2.1 hg.2.2.2 hg.1 hg.2.1
      cases b with
      | true =>
        have hred : (if 0 ≤ x + d.2 ∧ x + d.2 < (w : Int) ∧ 0 ≤ y + d.1 ∧ y + d.1 < (h : Int) then do
            let b ← liftO (getG m (y + d.1) (x + d.2))
            pure (if b then acc + 1 else acc)
          else pure acc) = Except.ok (acc + 1) := by
          rw [if_pos hg, hb]
          rfl
        have ho : offsetWater w h m x y d = true := by
          unfold offsetWater
          rw [Bool.and_eq_true, decide_eq_true_eq, decide_eq_true_eq]
          exact ⟨hg, hb⟩
        rw [hred, ok_bind, ih (acc + 1), if_pos ho]
        simp only [List.length_cons]
        congr 1
        omega
      | false =>
        have hred : (if 0 ≤ x + d.2 ∧ x + d.2 < (w : Int) ∧ 0 ≤ y + d.1 ∧ y + d.1 < (h : Int) then do
            let b ← liftO (getG m (y + d.1) (x + d.2))
            pure (if b then acc + 1 else acc)
          else pure acc) = Except.ok acc := by
          rw [if_pos hg, hb]
          rfl
        have ho : offsetWater w h m x y d = false := by
          unfold offsetWater
          rw [Bool.and_eq_false_iff]
          right
          rw [decide_eq_false_iff_not, hb]
          intro hcontra
          cases hcontra
        rw [hred, ok_bind, ih acc, if_neg (by rw [ho]; exact Bool.false_ne_true)]
    · have hred : (if 0 ≤ x + d.2 ∧ x + d.2 < (w : Int) ∧ 0 ≤ y + d.1 ∧ y + d.1 < (h : Int) then do
          let b ← liftO (getG m (y + d.1) (x + d.2))
          pure (if b then acc + 1 else acc)
        else pure acc) = Except.ok acc := by
        rw [if_neg hg]
        rfl
      have ho : offsetWater w h m x y d = false := by
        unfold offsetWater
        rw [Bool.and_eq_false_iff]
        left
        rw [decide_eq_false_iff_not]
        exact hg
      rw [hred, ok_bind, ih acc, if_neg (by rw [ho]; exact Bool.false_ne_true)]

theorem waterNeighbors_ok {w h : Nat} {m : BGrid} (hm : gridWF w h m) (x y : Int) :
    waterNeighbors w h m x y = Except.ok (nbrCount w h m x y) := by
  unfold waterNeighbors nbrCount
  rw [waterNeighbors_fold hm x y nbrOffsets 0, Nat.zero_add]

theorem caPass_ok {w h : Nat} {m : BGrid} (hm : gridWF w h m) :
    caPass w h m = Except.ok (caGrid w h m) := by
  unfold caPass caGrid
  apply mapM_ok_of
  intro y _
  apply mapM_ok_of
  intro x _
  rw [waterNeighbors_ok hm]
  rfl

theorem caGrid_WF (w h : Nat) (m : BGrid) : gridWF w h (caGrid w h m) := by
  constructor
  · unfold caGrid
    rw [List.length_map, List.length_range]
  · intro row hrow
    unfold caGrid at hrow
    obtain ⟨y, _, hy⟩ := List.mem_map.mp hrow
    rw [← hy, List.length_map, List.length_range]

theorem getG_caGrid {w h x y : Nat} (m : BGrid) (hx : x < w) (hy : y < h) :
    getG (caGrid w h m) (y : Int) (x : Int) =
      some (decide (4 ≤ nbrCount w h m (x : Int) (y : Int))) := by
  unfold getG caGrid
  rw [if_pos ⟨Int.natCast_nonneg y, Int.natCast_nonneg x⟩, Int.toNat_natCast, Int.toNat_natCast]
  rw [List.getElem?_map, List.getElem?_range hy, Option.map_some', Option.some_bind]
  rw [List.getElem?_map, List.getElem?_range hx, Option.map_some']

theorem filter_middle_length {α : Type} (p : α → Bool) (a : α) (A B : List α) :
    (List.filter p (A ++ a :: B)).length =
      (List.filter p (A ++ B)).length + (if p a then 1 else 0) := by
  rw [List.filter_append, List.filter_append, List.length_append, List.length_append,
    List.filter_cons]
  cases hp : p a with
  | true =>
    rw [if_pos rfl, if_pos rfl]
    simp only [List.length_cons]
    omega
  | false =>
    rw [if_neg Bool.false_ne_true, if_neg Bool.false_ne_true]
    omega

theorem nbrCount_split (w h : Nat) (m : BGrid) (x y : Int) :
    nbrCount w h m x y = mooreWaterCount w h m x y + selfWater w h m x y := by
  have h9 : nbrOffsets =
      ([(-1, -1), (-1, 0), (-1, 1), (0, -1)] : List (Int × Int)) ++
        (0, 0) :: [(0, 1), (1, -1), (1, 0), (1, 1)] := rfl
  have h8 : properOffsets =
      ([(-1, -1), (-1, 0), (-1, 1), (0, -1)] : List (Int × Int)) ++
        [(0, 1), (1, -1), (1, 0), (1, 1)] := rfl
  unfold nbrCount mooreWaterCount selfWater
  rw [h9, h8, filter_middle_length]

theorem liftO_some {α : Type} (a : α) : liftO (some a) = Except.ok a := rfl

theorem relaxWater_ok {w h : Nat} {m : BGrid} (hm : gridWF w h m) :
    relaxWater w h m =
      Except.ok (caGrid w h (caGrid w h (caGrid w h (caGrid w h m)))) := by
  unfold relaxWater
  rw [caPass_ok hm, ok_bind, caPass_ok (caGrid_WF w h m), ok_bind,
    caPass_ok (caGrid_WF w h _), ok_bind, caPass_ok (caGrid_WF w h _)]

theorem hasLandNeighbor_ok {w h : Nat} {m : BGrid} (hm : gridWF w h m) (x y : Int) :
    ∃ b, hasLandNeighbor w h m x y = Except.ok b := by
  have hstep : ∀ (b : Bool) (d : Int × Int), d ∈ nbrOffsets → True →
      ∃ b2, (fun (acc : Bool) (d : Int × Int) => do
        let nx := x + d.2
        let ny := y + d.1
        if 0 ≤ nx ∧ nx < (w : Int) ∧ 0 ≤ ny ∧ ny < (h : Int) then do
          let b ← liftO (getG m ny nx)
          pure (acc || !b)
        else
          pure acc) b d = Except.ok b2 ∧ True := by
    intro b d _ _
    by_cases hg : 0 ≤ x + d.2 ∧ x + d.2 < (w : Int) ∧ 0 ≤ y + d.1 ∧ y + d.1 < (h : Int)
    · obtain ⟨v, hv⟩ := getG_eq_some hm hg.2.2.1 hg.2.2.2 hg.1 hg.2.1
      refine ⟨b || !v, ?_, trivial⟩
      dsimp only
      rw [if_pos hg, hv, liftO_some, ok_bind]
      rfl
    · refine ⟨b, ?_, trivial⟩
      dsimp only
      rw [if_neg hg]
      rfl
  obtain ⟨b, hb, _⟩ := foldlM_ok_totalE (P := fun _ => True) nbrOffsets false trivial hstep
  exact ⟨b, hb⟩

theorem riverOrigins_ok {w h : Nat} {m : BGrid} (hm : gridWF w h m) (r : Rng) :
    ∃ res, riverOrigins w h m r = Except.ok res := by
  have hinner : ∀ (y : Nat), y < h → ∀ (acc : List (Int × Int) × Rng) (x : Nat), x ∈ List.range w →
      ∃ acc2, (fun (acc2 : List (Int × Int) × Rng) (x : Nat) => do
        let b ← liftO (getG m (y : Int) (x : Int))
        if b then do
          let hl ← hasLandNeighbor w h m (x : Int) (y : Int)
          if hl then
            let p := randF acc2.2
            if p.1 < 2 then pure (acc2.1 ++ [((x : Int), (y : Int))], p.2)
            else pure (acc2.1, p.2)
          else pure acc2
        else pure acc2) acc x = Except.ok acc2 := by
    intro y hyh acc x hx
    have hxw : x < w := List.mem_range.mp hx
    obtain ⟨b, hb⟩ := getG_eq_some (y := (y : Int)) (x := (x : Int)) hm
      (Int.natCast_nonneg y) (by omega) (Int.natCast_nonneg x) (by omega)
    obtain ⟨bl, hbl⟩ := hasLandNeighbor_ok hm (x : Int) (y : Int)
    cases b with
    | false =>
      refine ⟨acc, ?_⟩
      dsimp only
      rw [hb, liftO_some, ok_bind]
      rfl
    | true =>
      cases bl with
      | false =>
        refine ⟨acc, ?_⟩
        dsimp only
        rw [hb, liftO_some, ok_bind, hbl, ok_bind]
        rfl
      | true =>
        by_cases hp : (randF acc.2).1 < 2
        · refine ⟨(acc.1 ++ [((x : Int), (y : Int))], (randF acc.2).2), ?_⟩
          dsimp only
          rw [hb, liftO_some, ok_bind, hbl, ok_bind]
          rw [if_pos rfl, if_pos hp]
          rfl
        · refine ⟨(acc.1, (randF acc.2).2), ?_⟩
          dsimp only
          rw [hb, liftO_some, ok_bind, hbl, ok_bind]
          rw [if_pos rfl, if_neg hp]
          rfl
  have hstep : ∀ (acc : List (Int × Int) × Rng) (y : Nat), y ∈ List.range h → True →
      ∃ acc2, (fun (acc : List (Int × Int) × Rng) (y : Nat) =>
        (List.range w).foldlM
          (fun (acc2 : List (Int × Int) × Rng) (x : Nat) => do
            let b ← liftO (getG m (y : Int) (x : Int))
            if b then do
              let hl ← hasLandNeighbor w h m (x : Int) (y : Int)
              if hl then
                let p := randF acc2.2
                if p.1 < 2 then pure (acc2.1 ++ [((x : Int), (y : Int))], p.2)
                else pure (acc2.1, p.2)
              else pure acc2
            else pure acc2) acc) acc y = Except.ok acc2 ∧ True := by
    intro acc y hy _
    have hyh : y < h := List.mem_range.mp hy
    obtain ⟨res2, hres2, _⟩ := foldlM_ok_totalE (P := fun _ => True) (List.range w) acc trivial
      (fun acc2 x hx _ => by
        obtain ⟨a2, ha2⟩ := hinner y hyh acc2 x hx
        exact ⟨a2, ha2, trivial⟩)
    exact ⟨res2, hres2, trivial⟩
  obtain ⟨res, hres, _⟩ := foldlM_ok_totalE (P := fun _ => True) (List.range h)
    (([], r) : List (Int × Int) × Rng) trivial hstep
  exact ⟨res, hres⟩

theorem riverWalk_ok {w h : Nat} :
    ∀ (len : Nat) (m : BGrid) (x y dx dy : Int) (r : Rng), gridWF w h m →
    ∃ res, riverWalk w h len m x y dx dy r = Except.ok res ∧ gridWF w h res.1 := by
  intro len
  induction len with
  | zero =>
    intro m x y dx dy r hm
    exact ⟨(m, r), rfl, hm⟩
  | succ n ih =>
    intro m x y dx dy r hm
    unfold riverWalk
    by_cases hg : x + dx < 0 ∨ (w : Int) ≤ x + dx ∨ y + dy < 0 ∨ (h : Int) ≤ y + dy
    · rw [if_pos hg]
      exact ⟨(m, r), rfl, hm⟩
    · rw [if_neg hg]
      push_neg at hg
      obtain ⟨b, hb⟩ := getG_eq_some (y := y + dy) (x := x + dx) hm
        (by omega) (by omega) (by omega) (by omega)
      rw [hb, liftO_some, ok_bind]
      exact ih _ _ _ _ _ _ (gridWF_setG hm (by omega) (by omega) _ _)

theorem drawRivers_ok {w h : Nat} (total : Nat) :
    ∀ (l : List (Int × Int)) (m : BGrid) (r : Rng), gridWF w h m →
    ∃ res, drawRivers w h total l m r = Except.ok res ∧ gridWF w h res.1 := by
  intro l
  induction l with
  | nil =>
    intro m r hm
    exact ⟨(m, r), rfl, hm⟩
  | cons o rest ih =>
    intro m r hm
    unfold drawRivers
    by_cases ht : total ≤ 2
    · rw [if_pos ht]
      dsimp only
      obtain ⟨res1, hres1, hWF1⟩ := riverWalk_ok ((randIntn 8 r).1 + 3) m o.1 o.2
        (riverDir (randIntn 8 r).2).1.1 (riverDir (randIntn 8 r).2).1.2
        (riverDir (randIntn 8 r).2).2 hm
      rw [hres1, ok_bind]
      exact ih res1.1 res1.2 hWF1
    · rw [if_neg ht]
      by_cases hp : (randF r).1 < 5
      · rw [if_pos hp]
        dsimp only
        obtain ⟨res1, hres1, hWF1⟩ := riverWalk_ok ((randIntn 8 (randF r).2).1 + 3) m o.1 o.2
          (riverDir (randIntn 8 (randF r).2).2).1.1 (riverDir (randIntn 8 (randF r).2).2).1.2
          (riverDir (randIntn 8 (randF r).2).2).2 hm
        rw [hres1, ok_bind]
        exact ih res1.1 res1.2 hWF1
      · rw [if_neg hp]
        exact ih m (randF r).2 hm

theorem applyWater_ok {w h : Nat} (hw : w ≤ 128) (hh : h ≤ 128) {m : BGrid}
    (hm : gridWF w h m) {st : MapState} (hst : stWF w h st)
    (hG : InvGrass w h st) (hC : InvCollWater w h st) :
    ∃ st2, applyWater w h m st = Except.ok st2 ∧ stWF w h st2 ∧ InvGrass w h st2 ∧
      InvCollWater w h st2 ∧ st2.overlay = st.overlay ∧
      st2.bridgeTiles = st.bridgeTiles ∧ st2.placedBridges = st.placedBridges := by
  unfold applyWater
  refine foldlM_ok_total
    (P := fun st2 => stWF w h st2 ∧ InvGrass w h st2 ∧ InvCollWater w h st2 ∧
      st2.overlay = st.overlay ∧ st2.bridgeTiles = st.bridgeTiles ∧
      st2.placedBridges = st.placedBridges)
    ⟨hst, hG, hC, rfl, rfl, rfl⟩ ?_
  intro st1 y hy hP1
  refine foldlM_ok_total
    (P := fun st2 => stWF w h st2 ∧ InvGrass w h st2 ∧ InvCollWater w h st2 ∧
      st2.overlay = st.overlay ∧ st2.bridgeTiles = st.bridgeTiles ∧
      st2.placedBridges = st.placedBridges)
    hP1 ?_
  intro st2 x hx hP2
  obtain ⟨hst2, hG2, hC2, hov2, hbr2, hpl2⟩ := hP2
  have hyh : y < h := List.mem_range.mp hy
  have hxw : x < w := List.mem_range.mp hx
  obtain ⟨b, hb⟩ := getG_eq_some hm (Int.natCast_nonneg y) (by omega)
    (Int.natCast_nonneg x) (by omega)
  cases b with
  | false =>
    refine ⟨st2, ?_, hst2, hG2, hC2, hov2, hbr2, hpl2⟩
    rw [hb, liftO_some, ok_bind]
    rfl
  | true =>
    obtain ⟨t, ht⟩ := getG_eq_some hst2.1 (Int.natCast_nonneg y) (by omega)
      (Int.natCast_nonneg x) (by omega)
    refine ⟨{ st2 with
        base := setG st2.base (y : Int) (x : Int) TileWater
        collisionMap := insertKey (formatCoord (x : Int) (y : Int)) st2.collisionMap
        grassTiles := eraseKey (formatCoord (x : Int) (y : Int)) st2.grassTiles },
      ?_, ?_, ?_, ?_, hov2, hbr2, hpl2⟩
    · rw [hb, liftO_some, ok_bind, ht]
      rfl
    · exact ⟨gridWF_setG hst2.1 (Int.natCast_nonneg y) (by omega) _ _, hst2.2⟩
    · intro x2 y2 hx2 hy2 hmem
      obtain ⟨hmemold, hnek⟩ := mem_eraseKey.mp hmem
      by_cases heq : x2 = x ∧ y2 = y
      · exact absurd (by rw [heq.1, heq.2]) hnek
      · have hne2 : ¬((y2 : Int) = (y : Int) ∧ (x2 : Int) = (x : Int)) := by
          intro hcontra
          exact heq ⟨by exact_mod_cast hcontra.2, by exact_mod_cast hcontra.1⟩
        have hrw := getG_setG_ne (v := TileWater) hst2.1 (Int.natCast_nonneg y) (by omega)
          (Int.natCast_nonneg x) (by omega) hne2
        calc getG (setG st2.base (y : Int) (x : Int) TileWater) (y2 : Int) (x2 : Int)
            = getG st2.base (y2 : Int) (x2 : Int) := hrw
          _ = some TileGrass := hG2 x2 y2 hx2 hy2 hmemold
    · intro x2 y2 hx2 hy2 hmem
      rcases mem_insertKey.mp hmem with hk | hold
      · obtain ⟨hx2e, hy2e⟩ := formatCoord_inj (by omega) (by omega) (by omega) (by omega) hk
        rw [hx2e, hy2e]
        exact getG_setG_self hst2.1 (Int.natCast_nonneg y) (by omega)
          (Int.natCast_nonneg x) (by omega) _
      · have hold2 := hC2 x2 y2 hx2 hy2 hold
        by_cases heq : x2 = x ∧ y2 = y
        · rw [heq.1, heq.2]
          exact getG_setG_self hst2.1 (Int.natCast_nonneg y) (by omega)
            (Int.natCast_nonneg x) (by omega) _
        · have hne2 : ¬((y2 : Int) = (y : Int) ∧ (x2 : Int) = (x : Int)) := by
            intro hcontra
            exact heq ⟨by exact_mod_cast hcontra.2, by exact_mod_cast hcontra.1⟩
          have hrw := getG_setG_ne (v := TileWater) hst2.1 (Int.natCast_nonneg y) (by omega)
            (Int.natCast_nonneg x) (by omega) hne2
          rw [hrw]
          exact hold2

theorem generateWaterBodies_ok {w h : Nat} (hw : w ≤ 128) (hh : h ≤ 128)
    {st : MapState} (hst : stWF w h st) (hG : InvGrass w h st) (hC : InvCollWater w h st)
    (r : Rng) :
    ∃ st2 r2, generateWaterBodies w h st r = Except.ok (st2, r2) ∧ stWF w h st2 ∧
      InvGrass w h st2 ∧ InvCollWater w h st2 ∧ st2.overlay = st.overlay ∧
      st2.bridgeTiles = st.bridgeTiles ∧ st2.placedBridges = st.placedBridges := by
  unfold generateWaterBodies
  dsimp only
  have hm0 : gridWF w h (seedWater w h r).1 := seedWater_WF w h r
  rw [relaxWater_ok hm0, ok_bind]
  have hm4 := caGrid_WF w h (caGrid w h (caGrid w h (caGrid w h (seedWater w h r).1)))
  obtain ⟨og, hog⟩ := riverOrigins_ok hm4 (seedWater w h r).2
  rw [hog, ok_bind]
  obtain ⟨dres, hd, hdWF⟩ := drawRivers_ok og.1.length og.1 _ og.2 hm4
  rw [hd, ok_bind]
  obtain ⟨st2, ha, h1, h2, h3, h4, h5, h6⟩ := applyWater_ok hw hh hdWF hst hG hC
  rw [ha, ok_bind]
  exact ⟨st2, dres.2, rfl, h1, h2, h3, h4, h5, h6⟩

/-! ## Lemmas: the path synthesizer -/

theorem error_bind {α β : Type} (e : GenErr) (f : α → GenM β) :
    (Except.error e >>= f) = Except.error e := rfl

theorem getElem?_some_lt {α : Type} {l : List α} {i : Nat} {a : α}
    (hsome : l[i]? = some a) : i < l.length := by
  by_contra hge
  rw [List.getElem?_eq_none (by omega)] at hsome
  cases hsome

theorem getG_setG_self2 {α : Type} {g : List (List α)} {y x : Int} {v0 : α}
    (hv : getG g y x = some v0) (v : α) : getG (setG g y x v) y x = some v := by
  obtain ⟨hy0, hx0, row, hrow, hcell⟩ := getG_get hv
  have hyl : y.toNat < g.length := getElem?_some_lt hrow
  have hxl : x.toNat < row.length := getElem?_some_lt hcell
  have hrowE : g[y.toNat] = row := by
    rw [List.getElem?_eq_getElem hyl] at hrow
    exact Option.some_inj.mp hrow
  have hrowD : g.getD y.toNat [] = row := by
    rw [List.getD_eq_getElem g [] hyl]
    exact hrowE
  unfold getG setG
  rw [if_pos ⟨hy0, hx0⟩, List.getElem?_set_self hyl, Option.some_bind, hrowD,
    List.getElem?_set_self hxl]

theorem getG_setG_ne2 {α : Type} {g : List (List α)} {y x : Int} {v0 : α}
    (hv : getG g y x = some v0) (v : α) {y2 x2 : Int} (hne : ¬(y2 = y ∧ x2 = x)) :
    getG (setG g y x v) y2 x2 = getG g y2 x2 := by
  obtain ⟨hy0, hx0, row, hrow, hcell⟩ := getG_get hv
  have hyl : y.toNat < g.length := getElem?_some_lt hrow
  have hrowE : g[y.toNat] = row := by
    rw [List.getElem?_eq_getElem hyl] at hrow
    exact Option.some_inj.mp hrow
  have hrowD : g.getD y.toNat [] = row := by
    rw [List.getD_eq_getElem g [] hyl]
    exact hrowE
  by_cases hc : 0 ≤ y2 ∧ 0 ≤ x2
  · by_cases hyy : y2.toNat = y.toNat
    · have hy2 : y2 = y := by omega
      have hxx : x.toNat ≠ x2.toNat := by
        intro hxe
        exact hne ⟨hy2, by omega⟩
      unfold getG setG
      rw [if_pos hc, if_pos hc, hyy, List.getElem?_set_self hyl, Option.some_bind, hrowD,
        List.getElem?_eq_getElem hyl, Option.some_bind, hrowE,
        List.getElem?_set_ne hxx]
    · unfold getG setG
      rw [if_pos hc, if_pos hc, List.getElem?_set_ne (by omega)]
  · unfold getG setG
    rw [if_neg hc, if_neg hc]

theorem pathFrame_refl (st : MapState) : PathFrame st st :=
  ⟨rfl, rfl, rfl, rfl, fun _ _ hw => hw, fun _ _ hne => absurd rfl hne, fun _ hk => hk⟩

theorem pathFrame_trans {a b c : MapState} (h1 : PathFrame a b) (h2 : PathFrame b c) :
    PathFrame a c := by
  obtain ⟨ho1, hc1, hb1, hp1, hw1, hch1, hg1⟩ := h1
  obtain ⟨ho2, hc2, hb2, hp2, hw2, hch2, hg2⟩ := h2
  refine ⟨ho2.trans ho1, hc2.trans hc1, hb2.trans hb1, hp2.trans hp1,
    fun y x hw => hw2 y x (hw1 y x hw), ?_, fun k hk => hg1 k (hg2 k hk)⟩
  intro y x hne
  by_cases heq : getG c.base y x = getG b.base y x
  · have hneab : getG b.base y x ≠ getG a.base y x := fun he => hne (heq.trans he)
    obtain ⟨hp, hwat, hgr⟩ := hch1 y x hneab
    exact ⟨heq.trans hp, hwat, fun hk => hgr (hg2 _ hk)⟩
  · obtain ⟨hp, hwb, hgc⟩ := hch2 y x heq
    exact ⟨hp, fun hwa => hwb (hw1 y x hwa), hgc⟩

theorem stampPath_frame {st : MapState} {x y : Int} {st2 : MapState}
    (hrun : stampPath st x y = Except.ok st2) : PathFrame st st2 := by
  unfold stampPath at hrun
  cases ht : getG st.base y x with
  | none => rw [ht] at hrun; cases hrun
  | some t =>
    rw [ht, liftO_some, ok_bind] at hrun
    by_cases htw : t ≠ TileWater
    · rw [if_pos htw] at hrun
      cases hrun
      refine ⟨rfl, rfl, rfl, rfl, ?_, ?_, ?_⟩
      · intro y2 x2 hw2
        have hne : ¬(y2 = y ∧ x2 = x) := by
          intro hcontra
          rw [hcontra.1, hcontra.2, ht] at hw2
          exact htw (Option.some_inj.mp hw2)
        show getG (setG st.base y x TilePath) y2 x2 = some TileWater
        rw [getG_setG_ne2 ht _ hne]
        exact hw2
      · intro y2 x2 hne2
        by_cases heq : y2 = y ∧ x2 = x
        · obtain ⟨he1, he2⟩ := heq
          subst he1
          subst he2
          refine ⟨getG_setG_self2 ht _, ?_, ?_⟩
          · rw [ht]
            intro hcontra
            exact htw (Option.some_inj.mp hcontra)
          · intro hk
            exact (mem_eraseKey.mp hk).2 rfl
        · exact absurd (getG_setG_ne2 ht _ heq) hne2
      · intro k hk
        exact (mem_eraseKey.mp hk).1
    · rw [if_neg htw] at hrun
      cases hrun
      exact pathFrame_refl st

theorem stampPath_ok {w h : Nat} {st : MapState} (hst : stWF w h st) {x y : Int}
    (hy0 : 0 ≤ y) (hyh : y < (h : Int)) (hx0 : 0 ≤ x) (hxw : x < (w : Int)) :
    ∃ st2, stampPath st x y = Except.ok st2 ∧ stWF w h st2 := by
  obtain ⟨t, ht⟩ := getG_eq_some hst.1 hy0 hyh hx0 hxw
  unfold stampPath
  rw [ht, liftO_some, ok_bind]
  by_cases htw : t ≠ TileWater
  · rw [if_pos htw]
    exact ⟨_, rfl, gridWF_setG hst.1 hy0 hyh _ _, hst.2⟩
  · rw [if_neg htw]
    exact ⟨st, rfl, hst⟩

theorem pathWalk_frame : ∀ (fuel : Nat) (ex ey x y : Int) (st : MapState) (r : Rng)
    (st2 : MapState) (r2 : Rng),
    pathWalk fuel ex ey x y st r = Except.ok (st2, r2) → PathFrame st st2 := by
  intro fuel
  induction fuel with
  | zero =>
    intro ex ey x y st r st2 r2 hrun
    unfold pathWalk at hrun
    by_cases hd : x = ex ∧ y = ey
    · rw [if_pos hd] at hrun
      cases hrun
      exact pathFrame_refl st
    · rw [if_neg hd] at hrun
      cases hrun
  | succ n ih =>
    intro ex ey x y st r st2 r2 hrun
    unfold pathWalk at hrun
    by_cases hd : x = ex ∧ y = ey
    · rw [if_pos hd] at hrun
      cases hrun
      exact pathFrame_refl st
    · rw [if_neg hd] at hrun
      cases hsp : stampPath st x y with
      | error e => rw [hsp, error_bind] at hrun; cases hrun
      | ok stA =>
        rw [hsp, ok_bind] at hrun
        dsimp only at hrun
        have hframeA := stampPath_frame hsp
        have hrec : ∀ (x2 y2 : Int) (r3 : Rng),
            pathWalk n ex ey x2 y2 stA r3 = Except.ok (st2, r2) → PathFrame st st2 :=
          fun x2 y2 r3 hr => pathFrame_trans hframeA (ih ex ey x2 y2 stA r3 st2 r2 hr)
        repeat' split at hrun
        all_goals exact hrec _ _ _ hrun

theorem pathSegs_frame : ∀ (pts : List (Int × Int)) (fuel : Nat) (st : MapState) (r : Rng)
    (st2 : MapState) (r2 : Rng),
    pathSegs fuel pts st r = Except.ok (st2, r2) → PathFrame st st2 := by
  intro pts
  induction pts with
  | nil =>
    intro fuel st r st2 r2 hrun
    cases hrun
    exact pathFrame_refl st
  | cons p1 rest ih =>
    cases rest with
    | nil =>
      intro fuel st r st2 r2 hrun
      cases hrun
      exact pathFrame_refl st
    | cons p2 rest2 =>
      intro fuel st r st2 r2 hrun
      unfold pathSegs at hrun
      cases hwk : pathWalk fuel p2.1 p2.2 p1.1 p1.2 st r with
      | error e => rw [hwk, error_bind] at hrun; cases hrun
      | ok wres =>
        rw [hwk, ok_bind] at hrun
        cases hsp : stampPath wres.1 p2.1 p2.2 with
        | error e => rw [hsp, error_bind] at hrun; cases hrun
        | ok stB =>
          rw [hsp, ok_bind] at hrun
          exact pathFrame_trans (pathWalk_frame fuel p2.1 p2.2 p1.1 p1.2 st r wres.1 wres.2 hwk)
            (pathFrame_trans (stampPath_frame hsp) (ih fuel stB wres.2 st2 r2 hrun))

theorem generatePaths_frame {w h fuel : Nat} {st : MapState} {r : Rng}
    {st2 : MapState} {r2 : Rng}
    (hrun : generatePaths w h fuel st r = Except.ok (st2, r2)) : PathFrame st st2 := by
  unfold generatePaths at hrun
  dsimp only at hrun
  exact pathSegs_frame _ _ _ _ _ _ hrun

theorem pathFrame_invGrass {w h : Nat} {st st2 : MapState}
    (hf : PathFrame st st2) (hG : InvGrass w h st) : InvGrass w h st2 := by
  intro x y hx hy hmem
  by_cases hch : getG st2.base (y : Int) (x : Int) = getG st.base (y : Int) (x : Int)
  · rw [hch]
    exact hG x y hx hy (hf.2.2.2.2.2.2 _ hmem)
  · obtain ⟨_, _, hng⟩ := hf.2.2.2.2.2.1 (y : Int) (x : Int) hch
    exact absurd hmem hng

theorem pathFrame_invCollWater {w h : Nat} {st st2 : MapState}
    (hf : PathFrame st st2) (hC : InvCollWater w h st) : InvCollWater w h st2 := by
  intro x y hx hy hmem
  exact hf.2.2.2.2.1 (y : Int) (x : Int) (hC x y hx hy (by rw [← hf.2.1]; exact hmem))

theorem pathWalk_no_oob {w h : Nat} : ∀ (fuel : Nat) (ex ey x y : Int) (st : MapState) (r : Rng),
    stWF w h st → 0 ≤ x → x < (w : Int) → 0 ≤ y → y < (h : Int) →
    0 ≤ ex → ex < (w : Int) → 0 ≤ ey → ey < (h : Int) →
    pathWalk fuel ex ey x y st r ≠ Except.error GenErr.oob ∧
    (∀ st2 r2, pathWalk fuel ex ey x y st r = Except.ok (st2, r2) → stWF w h st2) := by
  intro fuel
  induction fuel with
  | zero =>
    intro ex ey x y st r hst hx0 hxw hy0 hyh hex0 hexw hey0 heyh
    unfold pathWalk
    by_cases hd : x = ex ∧ y = ey
    · rw [if_pos hd]
      exact ⟨(fun hc => by cases hc), fun st2 r2 he => by cases he; exact hst⟩
    · rw [if_neg hd]
      exact ⟨(fun hc => by simp at hc), fun st2 r2 he => by cases he⟩
  | succ n ih =>
    intro ex ey x y st r hst hx0 hxw hy0 hyh hex0 hexw hey0 heyh
    unfold pathWalk
    by_cases hd : x = ex ∧ y = ey
    · rw [if_pos hd]
      exact ⟨(fun hc => by cases hc), fun st2 r2 he => by cases he; exact hst⟩
    · rw [if_neg hd]
      obtain ⟨stA, hspA, hstA⟩ := stampPath_ok hst hy0 hyh hx0 hxw
      rw [hspA, ok_bind]
      dsimp only
      by_cases h1 : x < ex
      · rw [if_pos h1]
        by_cases h2 : (randF r).1 < 7
        · rw [if_pos h2]
          exact ih ex ey (x + 1) y stA (randF r).2 hstA (by omega) (by omega) hy0 hyh
            hex0 hexw hey0 heyh
        · rw [if_neg h2]
          by_cases h3 : y < ey
          · rw [if_pos h3]
            exact ih ex ey x (y + 1) stA (randF r).2 hstA hx0 hxw (by omega) (by omega)
              hex0 hexw hey0 heyh
          · rw [if_neg h3]
            by_cases h4 : ey < y
            · rw [if_pos h4]
              exact ih ex ey x (y - 1) stA (randF r).2 hstA hx0 hxw (by omega) (by omega)
                hex0 hexw hey0 heyh
            · rw [if_neg h4]
              exact ih ex ey x y stA (randF r).2 hstA hx0 hxw hy0 hyh
                hex0 hexw hey0 heyh
      · rw [if_neg h1]
        by_cases h1b : ex < x
        · rw [if_pos h1b]
          by_cases h2 : (randF r).1 < 7
          · rw [if_pos h2]
            exact ih ex ey (x - 1) y stA (randF r).2 hstA (by omega) (by omega) hy0 hyh
              hex0 hexw hey0 heyh
          · rw [if_neg h2]
            by_cases h3 : y < ey
            · rw [if_pos h3]
              exact ih ex ey x (y + 1) stA (randF r).2 hstA hx0 hxw (by omega) (by omega)
                hex0 hexw hey0 heyh
            · rw [if_neg h3]
              by_cases h4 : ey < y
              · rw [if_pos h4]
                exact ih ex ey x (y - 1) stA (randF r).2 hstA hx0 hxw (by omega) (by omega)
                  hex0 hexw hey0 heyh
              · rw [if_neg h4]
                exact ih ex ey x y stA (randF r).2 hstA hx0 hxw hy0 hyh
                  hex0 hexw hey0 heyh
        · rw [if_neg h1b]
          by_cases h3 : y < ey
          · rw [if_pos h3]
            exact ih ex ey x (y + 1) stA r hstA hx0 hxw (by omega) (by omega)
              hex0 hexw hey0 heyh
          · rw [if_neg h3]
            by_cases h4 : ey < y
            · rw [if_pos h4]
              exact ih ex ey x (y - 1) stA r hstA hx0 hxw (by omega) (by omega)
                hex0 hexw hey0 heyh
            · rw [if_neg h4]
              exact ih ex ey x y stA r hstA hx0 hxw hy0 hyh hex0 hexw hey0 heyh

theorem pathWalk_term {w h : Nat} : ∀ (fuel : Nat) (ex ey x y : Int) (st : MapState) (r : Rng),
    stWF w h st → 0 ≤ x → x < (w : Int) → 0 ≤ y → y < (h : Int) →
    0 ≤ ex → ex < (w : Int) → 0 ≤ ey → ey < (h : Int) →
    (∀ i, r.stream i % 10 < 7) →
    (ex - x).natAbs + (ey - y).natAbs ≤ fuel →
    ∃ st2 r2, pathWalk fuel ex ey x y st r = Except.ok (st2, r2) := by
  intro fuel
  induction fuel with
  | zero =>
    intro ex ey x y st r hst hx0 hxw hy0 hyh hex0 hexw hey0 heyh hgood hdist
    have hd : x = ex ∧ y = ey := by omega
    unfold pathWalk
    rw [if_pos hd]
    exact ⟨st, r, rfl⟩
  | succ n ih =>
    intro ex ey x y st r hst hx0 hxw hy0 hyh hex0 hexw hey0 heyh hgood hdist
    unfold pathWalk
    by_cases hd : x = ex ∧ y = ey
    · rw [if_pos hd]
      exact ⟨st, r, rfl⟩
    · obtain ⟨stA, hspA, hstA⟩ := stampPath_ok hst hy0 hyh hx0 hxw
      rw [if_neg hd, hspA, ok_bind]
      dsimp only
      have hgood2 : ∀ i, (randF r).2.stream i % 10 < 7 := fun i => hgood i
      by_cases h1 : x < ex
      · rw [if_pos h1, if_pos (show (randF r).1 < 7 from hgood r.pos)]
        exact ih ex ey (x + 1) y stA (randF r).2 hstA (by omega) (by omega) hy0 hyh
          hex0 hexw hey0 heyh hgood2 (by omega)
      · rw [if_neg h1]
        by_cases h1b : ex < x
        · rw [if_pos h1b, if_pos (show (randF r).1 < 7 from hgood r.pos)]
          exact ih ex ey (x - 1) y stA (randF r).2 hstA (by omega) (by omega) hy0 hyh
            hex0 hexw hey0 heyh hgood2 (by omega)
        · rw [if_neg h1b]
          by_cases h3 : y < ey
          · rw [if_pos h3]
            exact ih ex ey x (y + 1) stA r hstA hx0 hxw (by omega) (by omega)
              hex0 hexw hey0 heyh hgood (by omega)
          · rw [if_neg h3, if_pos (show ey < y by omega)]
            exact ih ex ey x (y - 1) stA r hstA hx0 hxw (by omega) (by omega)
              hex0 hexw hey0 heyh hgood (by omega)

theorem pathWalk_stuck : ∀ (fuel : Nat) (st : MapState) (p : Nat) (res : MapState × Rng),
    pathWalk fuel 1 0 0 0 st ⟨fun _ => 9, p⟩ ≠ Except.ok res := by
  intro fuel
  induction fuel with
  | zero =>
    intro st p res
    unfold pathWalk
    rw [if_neg (by intro hc; exact absurd hc.1 (by omega))]
    intro hc
    cases hc
  | succ n ih =>
    intro st p res
    unfold pathWalk
    rw [if_neg (by intro hc; exact absurd hc.1 (by omega))]
    cases hsp : stampPath st 0 0 with
    | error e =>
      rw [error_bind]
      intro hc
      cases hc
    | ok stA =>
      rw [ok_bind]
      dsimp only
      rw [if_pos (show (0 : Int) < 1 by omega)]
      rw [if_neg (show ¬(randF ⟨fun _ => 9, p⟩).1 < 7 from by
        show ¬9 % 10 < 7
        decide)]
      rw [if_neg (show ¬(0 : Int) < 0 by omega), if_neg (show ¬(0 : Int) < 0 by omega)]
      exact ih stA (p + 1) res

theorem pathPoints_bounds {w h : Nat} (hw : 0 < w) (hh : 0 < h) :
    ∀ (n : Nat) (r : Rng), ∀ p ∈ (pathPoints w h n r).1,
      0 ≤ p.1 ∧ p.1 < (w : Int) ∧ 0 ≤ p.2 ∧ p.2 < (h : Int) := by
  intro n
  induction n with
  | zero =>
    intro r p hp
    cases hp
  | succ n ih =>
    intro r p hp
    unfold pathPoints at hp
    dsimp only at hp
    rcases List.mem_cons.mp hp with he | hrest
    · rw [he]
      have h1 : (randIntn w r).1 < w := Nat.mod_lt _ hw
      have h2 : (randIntn h (randIntn w r).2).1 < h := Nat.mod_lt _ hh
      refine ⟨Int.natCast_nonneg _, ?_, Int.natCast_nonneg _, ?_⟩
      · show ((randIntn w r).1 : Int) < (w : Int)
        exact_mod_cast h1
      · show ((randIntn h (randIntn w r).2).1 : Int) < (h : Int)
        exact_mod_cast h2
    · exact ih _ p hrest

theorem pathSegs_no_oob {w h : Nat} :
    ∀ (pts : List (Int × Int)) (fuel : Nat) (st : MapState) (r : Rng),
    stWF w h st →
    (∀ p ∈ pts, 0 ≤ p.1 ∧ p.1 < (w : Int) ∧ 0 ≤ p.2 ∧ p.2 < (h : Int)) →
    pathSegs fuel pts st r ≠ Except.error GenErr.oob ∧
    (∀ st2 r2, pathSegs fuel pts st r = Except.ok (st2, r2) → stWF w h st2) := by
  intro pts
  induction pts with
  | nil =>
    intro fuel st r hst _
    exact ⟨(fun hc => by cases hc), fun st2 r2 he => by cases he; exact hst⟩
  | cons p1 rest ih =>
    cases rest with
    | nil =>
      intro fuel st r hst _
      exact ⟨(fun hc => by cases hc), fun st2 r2 he => by cases he; exact hst⟩
    | cons p2 rest2 =>
      intro fuel st r hst hpts
      have hp1 := hpts p1 (List.mem_cons_self _ _)
      have hp2 := hpts p2 (List.mem_cons_of_mem _ (List.mem_cons_self _ _))
      have hwalk := pathWalk_no_oob (w := w) (h := h) fuel p2.1 p2.2 p1.1 p1.2 st r hst
        hp1.1 hp1.2.1 hp1.2.2.1 hp1.2.2.2 hp2.1 hp2.2.1 hp2.2.2.1 hp2.2.2.2
      unfold pathSegs
      cases hwk : pathWalk fuel p2.1 p2.2 p1.1 p1.2 st r with
      | error e =>
        rw [error_bind]
        cases e with
        | oob => exact absurd hwk hwalk.1
        | fuelOut => exact ⟨(fun hc => by simp at hc), fun st2 r2 he => by cases he⟩
      | ok wres =>
        rw [ok_bind]
        have hstW : stWF w h wres.1 := hwalk.2 wres.1 wres.2 (by rw [hwk])
        obtain ⟨stB, hspB, hstB⟩ := stampPath_ok hstW hp2.2.2.1 hp2.2.2.2 hp2.1 hp2.2.1
        rw [hspB, ok_bind]
        exact ih fuel stB wres.2 hstB fun p hp => hpts p (List.mem_cons_of_mem _ hp)

theorem generatePaths_no_oob {w h fuel : Nat} (hw : 0 < w) (hh : 0 < h)
    {st : MapState} {r : Rng} (hst : stWF w h st) :
    generatePaths w h fuel st r ≠ Except.error GenErr.oob ∧
    (∀ st2 r2, generatePaths w h fuel st r = Except.ok (st2, r2) → stWF w h st2) := by
  unfold generatePaths
  dsimp only
  exact pathSegs_no_oob _ fuel st _ hst (pathPoints_bounds hw hh _ _)

/-! ## Lemmas: the mountain synthesizer -/

theorem invCollWater_invColl {w h : Nat} {st : MapState} (hC : InvCollWater w h st) :
    InvColl w h st :=
  fun x y hx hy hm => Or.inl (hC x y hx hy hm)

theorem waterCount5_ok {w h : Nat} {base : Grid} (hb : gridWF w h base) (cx cy : Int) :
    ∃ c, waterCount5 w h base cx cy = Except.ok c := by
  have hstep : ∀ (acc : Nat) (d : Int × Int), d ∈ offs5 → True →
      ∃ acc2, (fun (acc : Nat) (d : Int × Int) => do
        let nx := cx + d.2
        let ny := cy + d.1
        if 0 ≤ nx ∧ nx < (w : Int) ∧ 0 ≤ ny ∧ ny < (h : Int) then do
          let t ← liftO (getG base ny nx)
          pure (if t = TileWater then acc + 1 else acc)
        else pure acc) acc d = Except.ok acc2 ∧ True := by
    intro acc d _ _
    by_cases hg : 0 ≤ cx + d.2 ∧ cx + d.2 < (w : Int) ∧ 0 ≤ cy + d.1 ∧ cy + d.1 < (h : Int)
    · obtain ⟨t, ht⟩ := getG_eq_some hb hg.2.2.1 hg.2.2.2 hg.1 hg.2.1
      refine ⟨if t = TileWater then acc + 1 else acc, ?_, trivial⟩
      dsimp only
      rw [if_pos hg, ht, liftO_some, ok_bind]
      rfl
    · refine ⟨acc, ?_, trivial⟩
      dsimp only
      rw [if_neg hg]
      rfl
  obtain ⟨c, hc, _⟩ := foldlM_ok_totalE (P := fun _ => True) offs5 0 trivial hstep
  exact ⟨c, hc⟩

theorem findSpot_ok {w h : Nat} {base : Grid} (hb : gridWF w h base) :
    ∀ (n : Nat) (cur : Int × Int) (r : Rng),
    ∃ res, findSpot w h base n cur r = Except.ok res := by
  intro n
  induction n with
  | zero =>
    intro cur r
    exact ⟨(cur, r), rfl⟩
  | succ n ih =>
    intro cur r
    unfold findSpot
    obtain ⟨c, hc⟩ := waterCount5_ok hb
      ((((randIntn (w - 4) r).1 : Int)) + 2)
      ((((randIntn (h - 4) (randIntn (w - 4) r).2).1 : Int)) + 2)
    dsimp only
    rw [hc, ok_bind]
    by_cases hcle : c ≤ 2
    · rw [if_pos hcle]
      exact ⟨_, rfl⟩
    · rw [if_neg hcle]
      exact ih _ _

theorem mountainStamps_ok {w h : Nat} (hw : w ≤ 128) (hh : h ≤ 128) :
    ∀ (n : Nat) (c : Int × Int) (st : MapState) (r : Rng),
    stWF w h st → InvGrass w h st → InvColl w h st →
    ∃ st2 r2, mountainStamps w h n c st r = Except.ok (st2, r2) ∧ stWF w h st2 ∧
      InvGrass w h st2 ∧ InvColl w h st2 ∧ st2.overlay = st.overlay ∧
      st2.bridgeTiles = st.bridgeTiles ∧ st2.placedBridges = st.placedBridges := by
  intro n
  induction n with
  | zero =>
    intro c st r hst hG hC
    exact ⟨st, r, rfl, hst, hG, hC, rfl, rfl, rfl⟩
  | succ n ih =>
    intro c st r hst hG hC
    unfold mountainStamps
    dsimp only
    by_cases hg : 0 ≤ c.1 + (((randIntn 5 r).1 : Int) - 2) ∧
        c.1 + (((randIntn 5 r).1 : Int) - 2) < (w : Int) ∧
        0 ≤ c.2 + (((randIntn 5 (randIntn 5 r).2).1 : Int) - 2) ∧
        c.2 + (((randIntn 5 (randIntn 5 r).2).1 : Int) - 2) < (h : Int)
    · rw [if_pos hg]
      obtain ⟨t, ht⟩ := getG_eq_some hst.1 hg.2.2.1 hg.2.2.2 hg.1 hg.2.1
      rw [ht, liftO_some, ok_bind]
      by_cases htw : t ≠ TileWater
      · rw [if_pos htw]
        set nx := c.1 + (((randIntn 5 r).1 : Int) - 2) with hnx
        set ny := c.2 + (((randIntn 5 (randIntn 5 r).2).1 : Int) - 2) with hny
        have hnxe : nx = ((nx.toNat : Nat) : Int) := by omega
        have hnye : ny = ((ny.toNat : Nat) : Int) := by omega
        have hnxw : nx.toNat < w := by omega
        have hnyh : ny.toNat < h := by omega
        have hstepWF : stWF w h { st with
            base := setG st.base ny nx TileMountain
            collisionMap := insertKey (formatCoord nx ny) st.collisionMap
            grassTiles := eraseKey (formatCoord nx ny) st.grassTiles } :=
          ⟨gridWF_setG hst.1 hg.2.2.1 hg.2.2.2 _ _, hst.2⟩
        have hstepG : InvGrass w h { st with
            base := setG st.base ny nx TileMountain
            collisionMap := insertKey (formatCoord nx ny) st.collisionMap
            grassTiles := eraseKey (formatCoord nx ny) st.grassTiles } := by
          intro x2 y2 hx2 hy2 hmem
          obtain ⟨hmemold, hnek⟩ := mem_eraseKey.mp hmem
          by_cases heq : (y2 : Int) = ny ∧ (x2 : Int) = nx
          · exact absurd (by rw [← heq.1, ← heq.2]) hnek
          · show getG (setG st.base ny nx TileMountain) (y2 : Int) (x2 : Int) = some TileGrass
            rw [getG_setG_ne (v := TileMountain) hst.1 hg.2.2.1 hg.2.2.2 hg.1 hg.2.1 heq]
            exact hG x2 y2 hx2 hy2 hmemold
        have hstepC : InvColl w h { st with
            base := setG st.base ny nx TileMountain
            collisionMap := insertKey (formatCoord nx ny) st.collisionMap
            grassTiles := eraseKey (formatCoord nx ny) st.grassTiles } := by
          intro x2 y2 hx2 hy2 hmem
          rcases mem_insertKey.mp hmem with hk | hold
          · have hk2 : formatCoord (x2 : Int) (y2 : Int) =
                formatCoord ((nx.toNat : Nat) : Int) ((ny.toNat : Nat) : Int) := by
              rw [← hnxe, ← hnye]
              exact hk
            obtain ⟨hxe, hye⟩ := formatCoord_inj (by omega) (by omega) (by omega) (by omega) hk2
            right
            show getG (setG st.base ny nx TileMountain) (y2 : Int) (x2 : Int) = some TileMountain
            rw [hxe, hye, ← hnxe, ← hnye]
            exact getG_setG_self hst.1 hg.2.2.1 hg.2.2.2 hg.1 hg.2.1 _
          · by_cases heq : (y2 : Int) = ny ∧ (x2 : Int) = nx
            · right
              show getG (setG st.base ny nx TileMountain) (y2 : Int) (x2 : Int) = some TileMountain
              rw [heq.1, heq.2]
              exact getG_setG_self hst.1 hg.2.2.1 hg.2.2.2 hg.1 hg.2.1 _
            · have hrw : getG (setG st.base ny nx TileMountain) (y2 : Int) (x2 : Int) =
                  getG st.base (y2 : Int) (x2 : Int) :=
                getG_setG_ne (v := TileMountain) hst.1 hg.2.2.1 hg.2.2.2 hg.1 hg.2.1 heq
              rcases hC x2 y2 hx2 hy2 hold with hwat | hmou
              · left
                rw [hrw]
                exact hwat
              · right
                rw [hrw]
                exact hmou
        obtain ⟨st2, r2, hrun2, h1, h2, h3, h4, h5, h6⟩ := ih c _ _ hstepWF hstepG hstepC
        exact ⟨st2, r2, hrun2, h1, h2, h3, h4, h5, h6⟩
      · rw [if_neg htw]
        exact ih c st _ hst hG hC
    · rw [if_neg hg]
      exact ih c st _ hst hG hC

theorem mountainClusters_ok {w h : Nat} (hw : w ≤ 128) (hh : h ≤ 128) :
    ∀ (n : Nat) (st : MapState) (r : Rng),
    stWF w h st → InvGrass w h st → InvColl w h st →
    ∃ st2 r2, mountainClusters w h n st r = Except.ok (st2, r2) ∧ stWF w h st2 ∧
      InvGrass w h st2 ∧ InvColl w h st2 ∧ st2.overlay = st.overlay ∧
      st2.bridgeTiles = st.bridgeTiles ∧ st2.placedBridges = st.placedBridges := by
  intro n
  induction n with
  | zero =>
    intro st r hst hG hC
    exact ⟨st, r, rfl, hst, hG, hC, rfl, rfl, rfl⟩
  | succ n ih =>
    intro st r hst hG hC
    unfold mountainClusters
    obtain ⟨fs, hfs⟩ := findSpot_ok hst.1 20 (0, 0) r
    rw [hfs, ok_bind]
    dsimp only
    obtain ⟨stA, rA, hrunA, hA1, hA2, hA3, hA4, hA5, hA6⟩ :=
      mountainStamps_ok hw hh ((randIntn 8 fs.2).1 + 5) fs.1 st (randIntn 8 fs.2).2 hst hG hC
    rw [hrunA, ok_bind]
    obtain ⟨st2, r2, hrun2, h1, h2, h3, h4, h5, h6⟩ := ih stA rA hA1 hA2 hA3
    exact ⟨st2, r2, hrun2, h1, h2, h3, h4.trans hA4, h5.trans hA5, h6.trans hA6⟩

theorem generateMountains_ok {w h : Nat} (hw : w ≤ 128) (hh : h ≤ 128)
    {st : MapState} (hst : stWF w h st) (hG : InvGrass w h st) (hC : InvColl w h st)
    (r : Rng) :
    ∃ st2 r2, generateMountains w h st r = Except.ok (st2, r2) ∧ stWF w h st2 ∧
      InvGrass w h st2 ∧ InvColl w h st2 ∧ st2.overlay = st.overlay ∧
      st2.bridgeTiles = st.bridgeTiles ∧ st2.placedBridges = st.placedBridges := by
  unfold generateMountains
  dsimp only
  exact mountainClusters_ok hw hh ((randIntn 3 r).1 + 1) st (randIntn 3 r).2 hst hG hC

/-! ## Lemmas: the bridge synthesizer -/

theorem scanRun_ok {w h bound : Nat} {base : Grid} (hb : gridWF w h base) {y : Int}
    (hy0 : 0 ≤ y) (hyh : y < (h : Int)) (hbw : bound ≤ w) :
    ∀ (fuel s : Nat), ∃ e, scanRun bound base y fuel s = Except.ok e := by
  intro fuel
  induction fuel with
  | zero =>
    intro s
    exact ⟨s, rfl⟩
  | succ n ih =>
    intro s
    unfold scanRun
    by_cases hs : s < bound
    · rw [if_pos hs]
      obtain ⟨t, ht⟩ := getG_eq_some hb hy0 hyh (Int.natCast_nonneg s) (by omega)
      rw [ht, liftO_some, ok_bind]
      by_cases htw : t = TileWater
      · rw [if_pos htw]
        exact ih (s + 1)
      · rw [if_neg htw]
        exact ⟨s, rfl⟩
    · rw [if_neg hs]
      exact ⟨s, rfl⟩

theorem scanRun_spec {bound : Nat} {base : Grid} {y : Int} :
    ∀ (fuel s e : Nat), scanRun bound base y fuel s = Except.ok e →
    s ≤ e ∧ ∀ i : Nat, s ≤ i → i < e → getG base y (i : Int) = some TileWater := by
  intro fuel
  induction fuel with
  | zero =>
    intro s e hrun
    cases hrun
    exact ⟨Nat.le_refl s, fun i h1 h2 => absurd h2 (by omega)⟩
  | succ n ih =>
    intro s e hrun
    unfold scanRun at hrun
    by_cases hs : s < bound
    · rw [if_pos hs] at hrun
      cases ht : getG base y (s : Int) with
      | none => rw [ht] at hrun; cases hrun
      | some t =>
        rw [ht, liftO_some, ok_bind] at hrun
        by_cases htw : t = TileWater
        · rw [if_pos htw] at hrun
          obtain ⟨h1, h2⟩ := ih (s + 1) e hrun
          refine ⟨by omega, fun i hi1 hi2 => ?_⟩
          by_cases hie : i = s
          · rw [hie, ht, htw]
          · exact h2 i (by omega) hi2
        · rw [if_neg htw] at hrun
          cases hrun
          exact ⟨Nat.le_refl s, fun i h1 h2 => absurd h2 (by omega)⟩
    · rw [if_neg hs] at hrun
      cases hrun
      exact ⟨Nat.le_refl s, fun i h1 h2 => absurd h2 (by omega)⟩

theorem scanRun_exact {bound : Nat} {base : Grid} {y : Int} {e : Nat} {t : Nat}
    (hend : getG base y (e : Int) = some t) (htw : t ≠ TileWater) (heb : e < bound) :
    ∀ (fuel s : Nat), s ≤ e →
    (∀ i : Nat, s ≤ i → i < e → getG base y (i : Int) = some TileWater) →
    e - s < fuel → scanRun bound base y fuel s = Except.ok e := by
  intro fuel
  induction fuel with
  | zero =>
    intro s _ _ hfuel
    omega
  | succ n ih =>
    intro s hse hrun hfuel
    unfold scanRun
    by_cases hes : s = e
    · rw [if_pos (by omega), hes, hend, liftO_some, ok_bind, if_neg htw]
      rfl
    · have hslt : s < e := by omega
      rw [if_pos (by omega), hrun s (Nat.le_refl s) hslt, liftO_some, ok_bind, if_pos rfl]
      exact ih (s + 1) (by omega) (fun i h1 h2 => hrun i (by omega) h2) (by omega)

theorem scanRunY_ok {w h bound : Nat} {base : Grid} (hb : gridWF w h base) {x : Int}
    (hx0 : 0 ≤ x) (hxw : x < (w : Int)) (hbh : bound ≤ h) :
    ∀ (fuel s : Nat), ∃ e, scanRunY bound base x fuel s = Except.ok e := by
  intro fuel
  induction fuel with
  | zero =>
    intro s
    exact ⟨s, rfl⟩
  | succ n ih =>
    intro s
    unfold scanRunY
    by_cases hs : s < bound
    · rw [if_pos hs]
      obtain ⟨t, ht⟩ := getG_eq_some hb (Int.natCast_nonneg s) (by omega) hx0 hxw
      rw [ht, liftO_some, ok_bind]
      by_cases htw : t = TileWater
      · rw [if_pos htw]
        exact ih (s + 1)
      · rw [if_neg htw]
        exact ⟨s, rfl⟩
    · rw [if_neg hs]
      exact ⟨s, rfl⟩

theorem scanRunY_spec {bound : Nat} {base : Grid} {x : Int} :
    ∀ (fuel s e : Nat), scanRunY bound base x fuel s = Except.ok e →
    s ≤ e ∧ ∀ i : Nat, s ≤ i → i < e → getG base (i : Int) x = some TileWater := by
  intro fuel
  induction fuel with
  | zero =>
    intro s e hrun
    cases hrun
    exact ⟨Nat.le_refl s, fun i h1 h2 => absurd h2 (by omega)⟩
  | succ n ih =>
    intro s e hrun
    unfold scanRunY at hrun
    by_cases hs : s < bound
    · rw [if_pos hs] at hrun
      cases ht : getG base (s : Int) x with
      | none => rw [ht] at hrun; cases hrun
      | some t =>
        rw [ht, liftO_some, ok_bind] at hrun
        by_cases htw : t = TileWater
        · rw [if_pos htw] at hrun
          obtain ⟨h1, h2⟩ := ih (s + 1) e hrun
          refine ⟨by omega, fun i hi1 hi2 => ?_⟩
          by_cases hie : i = s
          · rw [hie, ht, htw]
          · exact h2 i (by omega) hi2
        · rw [if_neg htw] at hrun
          cases hrun
          exact ⟨Nat.le_refl s, fun i h1 h2 => absurd h2 (by omega)⟩
    · rw [if_neg hs] at hrun
      cases hrun
      exact ⟨Nat.le_refl s, fun i h1 h2 => absurd h2 (by omega)⟩

theorem scanRunY_exact {bound : Nat} {base : Grid} {x : Int} {e : Nat} {t : Nat}
    (hend : getG base (e : Int) x = some t) (htw : t ≠ TileWater) (heb : e < bound) :
    ∀ (fuel s : Nat), s ≤ e →
    (∀ i : Nat, s ≤ i → i < e → getG base (i : Int) x = some TileWater) →
    e - s < fuel → scanRunY bound base x fuel s = Except.ok e := by
  intro fuel
  induction fuel with
  | zero =>
    intro s _ _ hfuel
    omega
  | succ n ih =>
    intro s hse hrun hfuel
    unfold scanRunY
    by_cases hes : s = e
    · rw [if_pos (by omega), hes, hend, liftO_some, ok_bind, if_neg htw]
      rfl
    · have hslt : s < e := by omega
      rw [if_pos (by omega), hrun s (Nat.le_refl s) hslt, liftO_some, ok_bind, if_pos rfl]
      exact ih (s + 1) (by omega) (fun i h1 h2 => hrun i (by omega) h2) (by omega)

theorem pure_bind {α β : Type} (a : α) (f : α → GenM β) :
    ((pure a : GenM α) >>= f) = f a := rfl

theorem hCandAt_ok {w h : Nat} {base : Grid} (hb : gridWF w h base) {x y : Nat}
    (hx1 : 1 ≤ x) (hxw : x + 2 < w) (hy1 : 1 ≤ y) (hyh : y + 1 < h) :
    ∃ cs, hCandAt w h base x y = Except.ok cs ∧
      ∀ c ∈ cs, c.dir = 0 ∧ candOKH w h base c.x c.y c.len := by
  unfold hCandAt
  obtain ⟨t1, ht1⟩ := getG_eq_some (y := (y : Int)) (x := (x : Int) - 1) hb
    (by omega) (by omega) (by omega) (by omega)
  rw [ht1, liftO_some, ok_bind]
  by_cases h1 : t1 ≠ TileWater
  case neg =>
    rw [if_neg h1]
    exact ⟨[], rfl, fun c hc => absurd hc (List.not_mem_nil c)⟩
  rw [if_pos h1]
  obtain ⟨t2, ht2⟩ := getG_eq_some (y := (y : Int)) (x := (x : Int)) hb
    (by omega) (by omega) (by omega) (by omega)
  rw [ht2, liftO_some, ok_bind]
  by_cases h2 : t2 = TileWater
  case neg =>
    rw [if_neg h2]
    exact ⟨[], rfl, fun c hc => absurd hc (List.not_mem_nil c)⟩
  rw [if_pos h2]
  obtain ⟨endX, hscan⟩ := scanRun_ok hb (y := (y : Int)) (by omega) (by omega)
    (show w - 1 ≤ w by omega) w x
  rw [hscan, ok_bind]
  dsimp only
  by_cases h3 : endX < w
  case neg =>
    rw [if_neg h3]
    exact ⟨[], rfl, fun c hc => absurd hc (List.not_mem_nil c)⟩
  rw [if_pos h3]
  obtain ⟨t3, ht3⟩ := getG_eq_some (y := (y : Int)) (x := (endX : Int)) hb
    (by omega) (by omega) (by omega) (by omega)
  rw [ht3, liftO_some, ok_bind]
  by_cases h4 : t3 ≠ TileWater ∧ 2 ≤ endX - x ∧ endX - x ≤ 5
  case neg =>
    rw [if_neg h4]
    exact ⟨[], rfl, fun c hc => absurd hc (List.not_mem_nil c)⟩
  rw [if_pos h4]
  have hgl : 0 ≤ (x : Int) - 1 ∧ 0 ≤ (y : Int) - 1 ∧ (y : Int) + 1 < (h : Int) := by
    refine ⟨by omega, by omega, by omega⟩
  rw [if_pos hgl]
  obtain ⟨a1, ha1⟩ := getG_eq_some (y := (y : Int) - 1) (x := (x : Int) - 1) hb
    (by omega) (by omega) (by omega) (by omega)
  rw [ha1, liftO_some, ok_bind]
  obtain ⟨b1, hb1⟩ := getG_eq_some (y := (y : Int) + 1) (x := (x : Int) - 1) hb
    (by omega) (by omega) (by omega) (by omega)
  rw [hb1, liftO_some, ok_bind, pure_bind]
  have hgr : endX < w ∧ 0 ≤ (y : Int) - 1 ∧ (y : Int) + 1 < (h : Int) := by
    refine ⟨h3, by omega, by omega⟩
  rw [if_pos hgr]
  obtain ⟨a2, ha2⟩ := getG_eq_some (y := (y : Int) - 1) (x := (endX : Int)) hb
    (by omega) (by omega) (by omega) (by omega)
  rw [ha2, liftO_some, ok_bind]
  obtain ⟨b2, hb2⟩ := getG_eq_some (y := (y : Int) + 1) (x := (endX : Int)) hb
    (by omega) (by omega) (by omega) (by omega)
  rw [hb2, liftO_some, ok_bind, pure_bind]
  obtain ⟨hxle, hwrun⟩ := scanRun_spec w x endX hscan
  by_cases h5 : (decide (1 ≤ (if a1 ≠ TileWater then 1 else 0) + (if b1 ≠ TileWater then 1 else 0)) : Bool) ∧
      (decide (1 ≤ (if a2 ≠ TileWater then 1 else 0) + (if b2 ≠ TileWater then 1 else 0)) : Bool)
  · rw [if_pos h5]
    refine ⟨[{ x := x, y := y, dir := 0, len := endX - x }], rfl, ?_⟩
    intro c hc
    rw [List.mem_singleton] at hc
    subst hc
    dsimp only
    unfold candOKH
    refine ⟨rfl, hx1, hy1, hyh, h4.2.1, by omega, ?_, ⟨t1, ht1, h1⟩, ?_⟩
    · intro i hi1 hi2
      exact hwrun i hi1 (by omega)
    · have hcast : ((x + (endX - x) : Nat) : Int) = (endX : Int) := by omega
      rw [hcast]
      exact ⟨t3, ht3, h4.1⟩
  · rw [if_neg h5]
    exact ⟨[], rfl, fun c hc => absurd hc (List.not_mem_nil c)⟩

theorem vCandAt_ok {w h : Nat} {base : Grid} (hb : gridWF w h base) {x y : Nat}
    (hy1 : 1 ≤ y) (hyh : y + 2 < h) (hx1 : 1 ≤ x) (hxw : x + 1 < w) :
    ∃ cs, vCandAt w h base x y = Except.ok cs ∧
      ∀ c ∈ cs, c.dir = 1 ∧ candOKV w h base c.x c.y c.len := by
  unfold vCandAt
  obtain ⟨t1, ht1⟩ := getG_eq_some (y := (y : Int) - 1) (x := (x : Int)) hb
    (by omega) (by omega) (by omega) (by omega)
  rw [ht1, liftO_some, ok_bind]
  by_cases h1 : t1 ≠ TileWater
  case neg =>
    rw [if_neg h1]
    exact ⟨[], rfl, fun c hc => absurd hc (List.not_mem_nil c)⟩
  rw [if_pos h1]
  obtain ⟨t2, ht2⟩ := getG_eq_some (y := (y : Int)) (x := (x : Int)) hb
    (by omega) (by omega) (by omega) (by omega)
  rw [ht2, liftO_some, ok_bind]
  by_cases h2 : t2 = TileWater
  case neg =>
    rw [if_neg h2]
    exact ⟨[], rfl, fun c hc => absurd hc (List.not_mem_nil c)⟩
  rw [if_pos h2]
  obtain ⟨endY, hscan⟩ := scanRunY_ok hb (x := (x : Int)) (by omega) (by omega)
    (show h - 1 ≤ h by omega) h y
  rw [hscan, ok_bind]
  dsimp only
  by_cases h3 : endY < h
  case neg =>
    rw [if_neg h3]
    exact ⟨[], rfl, fun c hc => absurd hc (List.not_mem_nil c)⟩
  rw [if_pos h3]
  obtain ⟨t3, ht3⟩ := getG_eq_some (y := (endY : Int)) (x := (x : Int)) hb
    (by omega) (by omega) (by omega) (by omega)
  rw [ht3, liftO_some, ok_bind]
  by_cases h4 : t3 ≠ TileWater ∧ 2 ≤ endY - y ∧ endY - y ≤ 5
  case neg =>
    rw [if_neg h4]
    exact ⟨[], rfl, fun c hc => absurd hc (List.not_mem_nil c)⟩
  rw [if_pos h4]
  have hgl : 0 ≤ (y : Int) - 1 ∧ 0 ≤ (x : Int) - 1 ∧ (x : Int) + 1 < (w : Int) := by
    refine ⟨by omega, by omega, by omega⟩
  rw [if_pos hgl]
  obtain ⟨a1, ha1⟩ := getG_eq_some (y := (y : Int) - 1) (x := (x : Int) - 1) hb
    (by omega) (by omega) (by omega) (by omega)
  rw [ha1, liftO_some, ok_bind]
  obtain ⟨b1, hb1⟩ := getG_eq_some (y := (y : Int) - 1) (x := (x : Int) + 1) hb
    (by omega) (by omega) (by omega) (by omega)
  rw [hb1, liftO_some, ok_bind, pure_bind]
  have hgr : endY < h ∧ 0 ≤ (x : Int) - 1 ∧ (x : Int) + 1 < (w : Int) := by
    refine ⟨h3, by omega, by omega⟩
  rw [if_pos hgr]
  obtain ⟨a2, ha2⟩ := getG_eq_some (y := (endY : Int)) (x := (x : Int) - 1) hb
    (by omega) (by omega) (by omega) (by omega)
  rw [ha2, liftO_some, ok_bind]
  obtain ⟨b2, hb2⟩ := getG_eq_some (y := (endY : Int)) (x := (x : Int) + 1) hb
    (by omega) (by omega) (by omega) (by omega)
  rw [hb2, liftO_some, ok_bind, pure_bind]
  obtain ⟨hyle, hwrun⟩ := scanRunY_spec h y endY hscan
  by_cases h5 : (decide (1 ≤ (if a1 ≠ TileWater then 1 else 0) + (if b1 ≠ TileWater then 1 else 0)) : Bool) ∧
      (decide (1 ≤ (if a2 ≠ TileWater then 1 else 0) + (if b2 ≠ TileWater then 1 else 0)) : Bool)
  · rw [if_pos h5]
    refine ⟨[{ x := x, y := y, dir := 1, len := endY - y }], rfl, ?_⟩
    intro c hc
    rw [List.mem_singleton] at hc
    subst hc
    dsimp only
    unfold candOKV
    refine ⟨rfl, hy1, hx1, hxw, h4.2.1, by omega, ?_, ⟨t1, ht1, h1⟩, ?_⟩
    · intro i hi1 hi2
      exact hwrun i hi1 (by omega)
    · have hcast : ((y + (endY - y) : Nat) : Int) = (endY : Int) := by omega
      rw [hcast]
      exact ⟨t3, ht3, h4.1⟩
  · rw [if_neg h5]
    exact ⟨[], rfl, fun c hc => absurd hc (List.not_mem_nil c)⟩

theorem hCands_ok {w h : Nat} {base : Grid} (hb : gridWF w h base) :
    ∃ cands, hCands w h base = Except.ok cands ∧
      ∀ c ∈ cands, c.dir = 0 ∧ candOKH w h base c.x c.y c.len := by
  unfold hCands
  refine foldlM_ok_total
    (P := fun (acc : List Cand) => ∀ c ∈ acc, c.dir = 0 ∧ candOKH w h base c.x c.y c.len)
    (fun c hc => absurd hc (List.not_mem_nil c)) ?_
  intro acc y hy hP
  have hyb := List.mem_range'_1.mp hy
  refine foldlM_ok_total
    (P := fun (acc : List Cand) => ∀ c ∈ acc, c.dir = 0 ∧ candOKH w h base c.x c.y c.len) hP ?_
  intro acc2 x hx hP2
  have hxb := List.mem_range'_1.mp hx
  obtain ⟨cs, hcs, hcsP⟩ := hCandAt_ok hb (x := x) (y := y)
    (by omega) (by omega) (by omega) (by omega)
  refine ⟨acc2 ++ cs, ?_, ?_⟩
  · rw [hcs, ok_bind]
    rfl
  · intro c hc
    rcases List.mem_append.mp hc with hmem | hmem
    · exact hP2 c hmem
    · exact hcsP c hmem

theorem vCands_ok {w h : Nat} {base : Grid} (hb : gridWF w h base) :
    ∃ cands, vCands w h base = Except.ok cands ∧
      ∀ c ∈ cands, c.dir = 1 ∧ candOKV w h base c.x c.y c.len := by
  unfold vCands
  refine foldlM_ok_total
    (P := fun (acc : List Cand) => ∀ c ∈ acc, c.dir = 1 ∧ candOKV w h base c.x c.y c.len)
    (fun c hc => absurd hc (List.not_mem_nil c)) ?_
  intro acc x hx hP
  have hxb := List.mem_range'_1.mp hx
  refine foldlM_ok_total
    (P := fun (acc : List Cand) => ∀ c ∈ acc, c.dir = 1 ∧ candOKV w h base c.x c.y c.len) hP ?_
  intro acc2 y hy hP2
  have hyb := List.mem_range'_1.mp hy
  obtain ⟨cs, hcs, hcsP⟩ := vCandAt_ok hb (x := x) (y := y)
    (by omega) (by omega) (by omega) (by omega)
  refine ⟨acc2 ++ cs, ?_, ?_⟩
  · rw [hcs, ok_bind]
    rfl
  · intro c hc
    rcases List.mem_append.mp hc with hmem | hmem
    · exact hP2 c hmem
    · exact hcsP c hmem

theorem mem_insOrd {b : SBridge} : ∀ {l : List SBridge} {a : SBridge},
    a ∈ insOrd b l → a = b ∨ a ∈ l := by
  intro l
  induction l with
  | nil =>
    intro a ha
    rcases List.mem_singleton.mp ha with h1
    exact Or.inl h1
  | cons c rest ih =>
    intro a ha
    unfold insOrd at ha
    by_cases hs : c.score < b.score
    · rw [if_pos hs] at ha
      rcases List.mem_cons.mp ha with h1 | h2
      · exact Or.inl h1
      · exact Or.inr h2
    · rw [if_neg hs] at ha
      rcases List.mem_cons.mp ha with h1 | h2
      · exact Or.inr (h1 ▸ List.mem_cons_self _ _)
      · rcases ih h2 with h3 | h4
        · exact Or.inl h3
        · exact Or.inr (List.mem_cons_of_mem _ h4)

theorem mem_sortByScore : ∀ {l : List SBridge} {a : SBridge},
    a ∈ sortByScore l → a ∈ l := by
  intro l
  induction l with
  | nil =>
    intro a ha
    cases ha
  | cons c rest ih =>
    intro a ha
    unfold sortByScore at ha
    rcases mem_insOrd ha with h1 | h2
    · exact h1 ▸ List.mem_cons_self _ _
    · exact List.mem_cons_of_mem _ (ih h2)

theorem stampRunH_ok {w h : Nat} {y : Int} (hy0 : 0 ≤ y) (hyh : y < (h : Int)) :
    ∀ (n x : Nat) (st : MapState) (bm : KeySet), stWF w h st → x + n ≤ w →
    ∃ st2 bm2, stampRunH y x n st bm = Except.ok (st2, bm2) ∧
      stWF w h st2 ∧
      st2.base = st.base ∧ st2.grassTiles = st.grassTiles ∧
      st2.placedBridges = st.placedBridges ∧
      (∀ k : Key, k ∈ bm2 ↔ k ∈ bm ∨
        ∃ i : Nat, x ≤ i ∧ i < x + n ∧ k = formatCoord (i : Int) y) ∧
      (∀ k : Key, k ∈ st2.bridgeTiles ↔ k ∈ st.bridgeTiles ∨
        ∃ i : Nat, x ≤ i ∧ i < x + n ∧ k = formatCoord (i : Int) y) ∧
      (∀ k : Key, k ∈ st2.collisionMap ↔ k ∈ st.collisionMap ∧
        ¬∃ i : Nat, x ≤ i ∧ i < x + n ∧ k = formatCoord (i : Int) y) := by
  intro n
  induction n with
  | zero =>
    intro x st bm hst hxw
    refine ⟨st, bm, rfl, hst, rfl, rfl, rfl, ?_, ?_, ?_⟩ <;> intro k
    · exact ⟨Or.inl, fun hk => hk.elim id fun ⟨i, hi1, hi2, _⟩ => absurd hi2 (by omega)⟩
    · exact ⟨Or.inl, fun hk => hk.elim id fun ⟨i, hi1, hi2, _⟩ => absurd hi2 (by omega)⟩
    · exact ⟨fun hk => ⟨hk, fun ⟨i, hi1, hi2, _⟩ => absurd hi2 (by omega)⟩, fun hk => hk.1⟩
  | succ n ih =>
    intro x st bm hst hxw
    unfold stampRunH
    obtain ⟨t0, ht0⟩ := getG_eq_some (y := y) (x := (x : Int)) hst.2 hy0 hyh
      (Int.natCast_nonneg x) (by omega)
    rw [ht0, liftO_some, ok_bind]
    dsimp only
    obtain ⟨st2, bm2, hrun, hWF, hbase, hgrass, hpl, hbm, hbt, hcol⟩ :=
      ih (x + 1)
        { st with
          overlay := setG st.overlay y (x : Int) TileBridge
          bridgeTiles := insertKey (formatCoord (x : Int) y) st.bridgeTiles
          collisionMap := eraseKey (formatCoord (x : Int) y) st.collisionMap }
        (insertKey (formatCoord (x : Int) y) bm)
        ⟨hst.1, gridWF_setG hst.2 hy0 hyh _ _⟩ (by omega)
    refine ⟨st2, bm2, hrun, hWF, hbase, hgrass, hpl, ?_, ?_, ?_⟩ <;> intro k
    · rw [hbm k]
      constructor
      · rintro (hk | ⟨i, hi1, hi2, he⟩)
        · rcases mem_insertKey.mp hk with he | hk2
          · exact Or.inr ⟨x, Nat.le_refl x, by omega, he⟩
          · exact Or.inl hk2
        · exact Or.inr ⟨i, by omega, by omega, he⟩
      · rintro (hk | ⟨i, hi1, hi2, he⟩)
        · exact Or.inl (mem_insertKey.mpr (Or.inr hk))
        · by_cases hix : i = x
          · exact Or.inl (mem_insertKey.mpr (Or.inl (by rw [he, hix])))
          · exact Or.inr ⟨i, by omega, by omega, he⟩
    · rw [hbt k]
      constructor
      · rintro (hk | ⟨i, hi1, hi2, he⟩)
        · rcases mem_insertKey.mp hk with he | hk2
          · exact Or.inr ⟨x, Nat.le_refl x, by omega, he⟩
          · exact Or.inl hk2
        · exact Or.inr ⟨i, by omega, by omega, he⟩
      · rintro (hk | ⟨i, hi1, hi2, he⟩)
        · exact Or.inl (mem_insertKey.mpr (Or.inr hk))
        · by_cases hix : i = x
          · exact Or.inl (mem_insertKey.mpr (Or.inl (by rw [he, hix])))
          · exact Or.inr ⟨i, by omega, by omega, he⟩
    · rw [hcol k]
      constructor
      · rintro ⟨hk, hno⟩
        obtain ⟨hk2, hne⟩ := mem_eraseKey.mp hk
        refine ⟨hk2, ?_⟩
        rintro ⟨i, hi1, hi2, he⟩
        by_cases hix : i = x
        · exact hne (by rw [he, hix])
        · exact hno ⟨i, by omega, by omega, he⟩
      · rintro ⟨hk, hno⟩
        refine ⟨mem_eraseKey.mpr ⟨hk, ?_⟩, ?_⟩
        · intro he
          exact hno ⟨x, Nat.le_refl x, by omega, he⟩
        · rintro ⟨i, hi1, hi2, he⟩
          exact hno ⟨i, by omega, by omega, he⟩

theorem stampRunV_ok {w h : Nat} {x : Int} (hx0 : 0 ≤ x) (hxw : x < (w : Int)) :
    ∀ (n y : Nat) (st : MapState) (bm : KeySet), stWF w h st → y + n ≤ h →
    ∃ st2 bm2, stampRunV x y n st bm = Except.ok (st2, bm2) ∧
      stWF w h st2 ∧
      st2.base = st.base ∧ st2.grassTiles = st.grassTiles ∧
      st2.placedBridges = st.placedBridges ∧
      (∀ k : Key, k ∈ bm2 ↔ k ∈ bm ∨
        ∃ i : Nat, y ≤ i ∧ i < y + n ∧ k = formatCoord x (i : Int)) ∧
      (∀ k : Key, k ∈ st2.bridgeTiles ↔ k ∈ st.bridgeTiles ∨
        ∃ i : Nat, y ≤ i ∧ i < y + n ∧ k = formatCoord x (i : Int)) ∧
      (∀ k : Key, k ∈ st2.collisionMap ↔ k ∈ st.collisionMap ∧
        ¬∃ i : Nat, y ≤ i ∧ i < y + n ∧ k = formatCoord x (i : Int)) := by
  intro n
  induction n with
  | zero =>
    intro y st bm hst hyh
    refine ⟨st, bm, rfl, hst, rfl, rfl, rfl, ?_, ?_, ?_⟩ <;> intro k
    · exact ⟨Or.inl, fun hk => hk.elim id fun ⟨i, hi1, hi2, _⟩ => absurd hi2 (by omega)⟩
    · exact ⟨Or.inl, fun hk => hk.elim id fun ⟨i, hi1, hi2, _⟩ => absurd hi2 (by omega)⟩
    · exact ⟨fun hk => ⟨hk, fun ⟨i, hi1, hi2, _⟩ => absurd hi2 (by omega)⟩, fun hk => hk.1⟩
  | succ n ih =>
    intro y st bm hst hyh
    unfold stampRunV
    obtain ⟨t0, ht0⟩ := getG_eq_some (y := (y : Int)) (x := x) hst.2
      (Int.natCast_nonneg y) (by omega) hx0 hxw
    rw [ht0, liftO_some, ok_bind]
    dsimp only
    obtain ⟨st2, bm2, hrun, hWF, hbase, hgrass, hpl, hbm, hbt, hcol⟩ :=
      ih (y + 1)
        { st with
          overlay := setG st.overlay (y : Int) x TileBridge
          bridgeTiles := insertKey (formatCoord x (y : Int)) st.bridgeTiles
          collisionMap := eraseKey (formatCoord x (y : Int)) st.collisionMap }
        (insertKey (formatCoord x (y : Int)) bm)
        ⟨hst.1, gridWF_setG hst.2 (Int.natCast_nonneg y) (by omega) _ _⟩ (by omega)
    refine ⟨st2, bm2, hrun, hWF, hbase, hgrass, hpl, ?_, ?_, ?_⟩ <;> intro k
    · rw [hbm k]
      constructor
      · rintro (hk | ⟨i, hi1, hi2, he⟩)
        · rcases mem_insertKey.mp hk with he | hk2
          · exact Or.inr ⟨y, Nat.le_refl y, by omega, he⟩
          · exact Or.inl hk2
        · exact Or.inr ⟨i, by omega, by omega, he⟩
      · rintro (hk | ⟨i, hi1, hi2, he⟩)
        · exact Or.inl (mem_insertKey.mpr (Or.inr hk))
        · by_cases hiy : i = y
          · exact Or.inl (mem_insertKey.mpr (Or.inl (by rw [he, hiy])))
          · exact Or.inr ⟨i, by omega, by omega, he⟩
    · rw [hbt k]
      constructor
      · rintro (hk | ⟨i, hi1, hi2, he⟩)
        · rcases mem_insertKey.mp hk with he | hk2
          · exact Or.inr ⟨y, Nat.le_refl y, by omega, he⟩
          · exact Or.inl hk2
        · exact Or.inr ⟨i, by omega, by omega, he⟩
      · rintro (hk | ⟨i, hi1, hi2, he⟩)
        · exact Or.inl (mem_insertKey.mpr (Or.inr hk))
        · by_cases hiy : i = y
          · exact Or.inl (mem_insertKey.mpr (Or.inl (by rw [he, hiy])))
          · exact Or.inr ⟨i, by omega, by omega, he⟩
    · rw [hcol k]
      constructor
      · rintro ⟨hk, hno⟩
        obtain ⟨hk2, hne⟩ := mem_eraseKey.mp hk
        refine ⟨hk2, ?_⟩
        rintro ⟨i, hi1, hi2, he⟩
        by_cases hiy : i = y
        · exact hne (by rw [he, hiy])
        · exact hno ⟨i, by omega, by omega, he⟩
      · rintro ⟨hk, hno⟩
        refine ⟨mem_eraseKey.mpr ⟨hk, ?_⟩, ?_⟩
        · intro he
          exact hno ⟨y, Nat.le_refl y, by omega, he⟩
        · rintro ⟨i, hi1, hi2, he⟩
          exact hno ⟨i, by omega, by omega, he⟩

theorem mem_intRange {lo hi a : Int} : a ∈ intRange lo hi ↔ lo ≤ a ∧ a ≤ hi := by
  unfold intRange
  constructor
  · intro ha
    obtain ⟨i, hi, he⟩ := List.mem_map.mp ha
    have hilt := List.mem_range.mp hi
    omega
  · intro hc
    refine List.mem_map.mpr ⟨(a - lo).toNat, List.mem_range.mpr (by omega), by omega⟩

theorem anyBridgeKey_false {bm : KeySet} {xlo xhi ylo yhi : Int}
    (hfalse : anyBridgeKey bm xlo xhi ylo yhi = false) :
    ∀ (xx yy : Int), xlo ≤ xx → xx ≤ xhi → ylo ≤ yy → yy ≤ yhi →
    formatCoord xx yy ∉ bm := by
  intro xx yy hx1 hx2 hy1 hy2 hmem
  unfold anyBridgeKey at hfalse
  rw [List.any_eq_false] at hfalse
  have h1 := hfalse yy (mem_intRange.mpr ⟨hy1, hy2⟩)
  rw [Bool.not_eq_true, List.any_eq_false] at h1
  have h2 := h1 xx (mem_intRange.mpr ⟨hx1, hx2⟩)
  rw [Bool.not_eq_true] at h2
  have h3 : List.contains bm (formatCoord xx yy) = true := List.elem_eq_true_of_mem hmem
  rw [h2] at h3
  cases h3

theorem goAbs_le {a d : Int} (hle : goAbs a ≤ d) : -d ≤ a ∧ a ≤ d := by
  unfold goAbs at hle
  by_cases hneg : a < 0
  · rw [if_pos hneg] at hle
    omega
  · rw [if_neg hneg] at hle
    omega

theorem chebDist_le_two {c1 c2 : Nat × Nat} (hle : chebDist c1 c2 ≤ 2) :
    ((c2.1 : Int)) - 2 ≤ (c1.1 : Int) ∧ (c1.1 : Int) ≤ (c2.1 : Int) + 2 ∧
    ((c2.2 : Int)) - 2 ≤ (c1.2 : Int) ∧ (c1.2 : Int) ≤ (c2.2 : Int) + 2 := by
  unfold chebDist at hle
  rw [max_le_iff] at hle
  obtain ⟨h1, h2⟩ := goAbs_le hle.1
  obtain ⟨h3, h4⟩ := goAbs_le hle.2
  omega

theorem mem_pbCells_h {bx byy e : Nat} {c : Nat × Nat} :
    c ∈ pbCells ⟨bx, byy, 0, e⟩ ↔ bx ≤ c.1 ∧ c.1 < e ∧ c.2 = byy := by
  unfold pbCells
  rw [if_pos rfl]
  dsimp only
  constructor
  · intro hc
    obtain ⟨i, hi, he⟩ := List.mem_map.mp hc
    have hib := List.mem_range'_1.mp hi
    obtain ⟨c1, c2⟩ := c
    cases he
    refine ⟨hib.1, by omega, rfl⟩
  · intro hc
    obtain ⟨c1, c2⟩ := c
    dsimp only at hc
    refine List.mem_map.mpr ⟨c1, List.mem_range'_1.mpr ⟨hc.1, by omega⟩, ?_⟩
    rw [hc.2.2]

theorem mem_pbCells_v {bx byy e : Nat} {c : Nat × Nat} :
    c ∈ pbCells ⟨bx, byy, 1, e⟩ ↔ byy ≤ c.2 ∧ c.2 < e ∧ c.1 = bx := by
  unfold pbCells
  rw [if_neg (show ¬(1 = 0) by omega)]
  dsimp only
  constructor
  · intro hc
    obtain ⟨i, hi, he⟩ := List.mem_map.mp hc
    have hib := List.mem_range'_1.mp hi
    obtain ⟨c1, c2⟩ := c
    cases he
    refine ⟨hib.1, by omega, rfl⟩
  · intro hc
    obtain ⟨c1, c2⟩ := c
    dsimp only at hc
    refine List.mem_map.mpr ⟨c2, List.mem_range'_1.mpr ⟨hc.1, by omega⟩, ?_⟩
    rw [hc.2.2]

theorem placeLoop_ok {w h : Nat} (hw : w ≤ 128) (hh : h ≤ 128) :
    ∀ (l : List SBridge) (placed numB : Nat) (bm : KeySet) (st : MapState),
    stWF w h st →
    (∀ b ∈ l, candOK w h st.base b) →
    st.placedBridges.length = placed →
    placed ≤ numB →
    (∀ pb ∈ st.placedBridges, ∀ c ∈ pbCells pb,
      formatCoord (c.1 : Int) (c.2 : Int) ∈ bm) →
    BridgesSeparated st.placedBridges →
    (∀ pb ∈ st.placedBridges, BridgeValid st pb) →
    InvBridgeWater w h st →
    BridgeDisj st →
    ∃ st2 bm2, placeLoop w h l placed numB bm st = Except.ok (st2, bm2) ∧
      stWF w h st2 ∧ st2.base = st.base ∧ st2.grassTiles = st.grassTiles ∧
      (∀ k, k ∈ st2.collisionMap → k ∈ st.collisionMap) ∧
      st2.placedBridges.length ≤ numB ∧
      BridgesSeparated st2.placedBridges ∧
      (∀ pb ∈ st2.placedBridges, BridgeValid st2 pb) ∧
      InvBridgeWater w h st2 ∧
      BridgeDisj st2 := by
  intro l
  induction l with
  | nil =>
    intro placed numB bm st hst hcand hlen hpn hcells hsep hvalid hbrW hdisj
    exact ⟨st, bm, rfl, hst, rfl, rfl, fun k hk => hk, by omega, hsep, hvalid, hbrW, hdisj⟩
  | cons b rest ih =>
    intro placed numB bm st hst hcand hlen hpn hcells hsep hvalid hbrW hdisj
    unfold placeLoop
    by_cases hplt : placed < numB
    case neg =>
      rw [if_neg hplt]
      exact ⟨st, bm, rfl, hst, rfl, rfl, fun k hk => hk, by omega, hsep, hvalid, hbrW, hdisj⟩
    rw [if_pos hplt]
    by_cases hdir : b.dir = 0
    · rw [if_pos hdir]
      obtain ⟨hx1, hy1, hyh, hlen2, hxlw, hrun, ⟨tl, htl, htlw⟩, ⟨tr, htr, htrw⟩⟩ :=
        (hcand b (List.mem_cons_self _ _)).1 hdir
      have hscan : scanRun w st.base (b.y : Int) (w + 1) b.x = Except.ok (b.x + b.len) :=
        scanRun_exact htr htrw (by omega) (w + 1) b.x (by omega)
          (fun i h1 h2 => hrun i h1 h2) (by omega)
      rw [hscan, ok_bind]
      dsimp only
      by_cases htc : anyBridgeKey bm ((b.x : Int) - 2) (((b.x + b.len : Nat) : Int) + 2)
          ((b.y : Int) - 2) ((b.y : Int) + 2) = true
      · rw [if_pos htc]
        exact ih placed numB bm st hst (fun b2 hb2 => hcand b2 (List.mem_cons_of_mem _ hb2))
          hlen hpn hcells hsep hvalid hbrW hdisj
      · rw [if_neg htc]
        have htc2 : anyBridgeKey bm ((b.x : Int) - 2) (((b.x + b.len : Nat) : Int) + 2)
            ((b.y : Int) - 2) ((b.y : Int) + 2) = false := by
          rw [Bool.eq_false_iff]
          exact htc
        obtain ⟨stA, bmA, hstamp, hWFA, hbaseA, hgrassA, hplA, hbmA, hbtA, hcolA⟩ :=
          stampRunH_ok (y := (b.y : Int)) (Int.natCast_nonneg b.y) (by omega)
            (b.x + b.len - b.x) b.x st bm hst (by omega)
        rw [hstamp, ok_bind]
        dsimp only
        have hcand3 : ∀ b2 ∈ rest, candOK w h stA.base b2 := by
          rw [hbaseA]
          exact fun b2 hb2 => hcand b2 (List.mem_cons_of_mem _ hb2)
        have hcellsNew : ∀ c ∈ pbCells ⟨b.x, b.y, 0, b.x + b.len⟩,
            formatCoord (c.1 : Int) (c.2 : Int) ∈ bmA := by
          intro c hc
          rw [mem_pbCells_h] at hc
          refine (hbmA _).mpr (Or.inr ⟨c.1, hc.1, by omega, ?_⟩)
          rw [hc.2.2]
        have hcells3 : ∀ pb ∈ st.placedBridges ++ [(⟨b.x, b.y, 0, b.x + b.len⟩ : PlacedBridge)],
            ∀ c ∈ pbCells pb, formatCoord (c.1 : Int) (c.2 : Int) ∈ bmA := by
          intro pb hpb c hc
          rcases List.mem_append.mp hpb with hold | hnew
          · exact (hbmA _).mpr (Or.inl (hcells pb hold c hc))
          · rw [List.mem_singleton] at hnew
            subst hnew
            exact hcellsNew c hc
        have hsep3 : BridgesSeparated
            (st.placedBridges ++ [(⟨b.x, b.y, 0, b.x + b.len⟩ : PlacedBridge)]) := by
          refine List.pairwise_append.mpr ⟨hsep, List.pairwise_singleton _ _, ?_⟩
          intro p hp q hq c1 hc1 c2 hc2
          rw [List.mem_singleton] at hq
          subst hq
          rw [mem_pbCells_h] at hc2
          by_contra hgt
          have hle2 : chebDist c1 c2 ≤ 2 := by omega
          obtain ⟨hb1, hb2, hb3, hb4⟩ := chebDist_le_two hle2
          have hnotin := anyBridgeKey_false htc2 (c1.1 : Int) (c1.2 : Int)
            (by omega) (by omega) (by omega) (by omega)
          exact hnotin (hcells p hp c1 hc1)
        have hval3 : ∀ pb ∈ st.placedBridges,
            BridgeValid { stA with placedBridges :=
              stA.placedBridges ++ [⟨b.x, b.y, 0, b.x + b.len⟩] } pb := by
          intro pb hpb
          obtain ⟨hcv, hH, hV⟩ := hvalid pb hpb
          refine ⟨?_, ?_, ?_⟩
          · intro c hc
            obtain ⟨hw1, hw2, hw3⟩ := hcv c hc
            refine ⟨?_, (hbtA _).mpr (Or.inl hw2), ?_⟩
            · show getG stA.base (c.2 : Int) (c.1 : Int) = some TileWater
              rw [hbaseA]
              exact hw1
            · intro hk
              exact hw3 ((hcolA _).mp hk).1
          · intro hd0
            obtain ⟨⟨t1, ht1e, ht1w⟩, ⟨t2, ht2e, ht2w⟩⟩ := hH hd0
            refine ⟨⟨t1, ?_, ht1w⟩, ⟨t2, ?_, ht2w⟩⟩
            · show getG stA.base (pb.y : Int) ((pb.x : Int) - 1) = some t1
              rw [hbaseA]
              exact ht1e
            · show getG stA.base (pb.y : Int) (pb.endC : Int) = some t2
              rw [hbaseA]
              exact ht2e
          · intro hd1
            obtain ⟨⟨t1, ht1e, ht1w⟩, ⟨t2, ht2e, ht2w⟩⟩ := hV hd1
            refine ⟨⟨t1, ?_, ht1w⟩, ⟨t2, ?_, ht2w⟩⟩
            · show getG stA.base ((pb.y : Int) - 1) (pb.x : Int) = some t1
              rw [hbaseA]
              exact ht1e
            · show getG stA.base (pb.endC : Int) (pb.x : Int) = some t2
              rw [hbaseA]
              exact ht2e
        have hvalNew : BridgeValid { stA with placedBridges :=
            stA.placedBridges ++ [⟨b.x, b.y, 0, b.x + b.len⟩] } ⟨b.x, b.y, 0, b.x + b.len⟩ := by
          refine ⟨?_, ?_, ?_⟩
          · intro c hc
            rw [mem_pbCells_h] at hc
            refine ⟨?_, (hbtA _).mpr (Or.inr ⟨c.1, hc.1, by omega, by rw [hc.2.2]⟩), ?_⟩
            · show getG stA.base (c.2 : Int) (c.1 : Int) = some TileWater
              rw [hbaseA, hc.2.2]
              exact hrun c.1 hc.1 hc.2.1
            · intro hk
              exact ((hcolA _).mp hk).2 ⟨c.1, hc.1, by omega, by rw [hc.2.2]⟩
          · intro _
            refine ⟨⟨tl, ?_, htlw⟩, ⟨tr, ?_, htrw⟩⟩
            · show getG stA.base (b.y : Int) ((b.x : Int) - 1) = some tl
              rw [hbaseA]
              exact htl
            · show getG stA.base (b.y : Int) ((b.x + b.len : Nat) : Int) = some tr
              rw [hbaseA]
              exact htr
          · intro hd1
            exact absurd rfl hd1
        have hbrW3 : InvBridgeWater w h { stA with placedBridges :=
            stA.placedBridges ++ [⟨b.x, b.y, 0, b.x + b.len⟩] } := by
          intro x2 y2 hx2 hy2 hk
          rcases (hbtA _).mp hk with hold | ⟨i, hi1, hi2, he⟩
          · show getG stA.base (y2 : Int) (x2 : Int) = some TileWater
            rw [hbaseA]
            exact hbrW x2 y2 hx2 hy2 hold
          · have hilt : i < b.x + b.len := by omega
            obtain ⟨hxe, hye⟩ := formatCoord_injE x2 y2 i b.y
              (by omega) (by omega) (by omega) (by omega) he
            show getG stA.base (y2 : Int) (x2 : Int) = some TileWater
            rw [hbaseA, hxe, hye]
            exact hrun i hi1 hilt
        have hdisj3 : BridgeDisj { stA with placedBridges :=
            stA.placedBridges ++ [⟨b.x, b.y, 0, b.x + b.len⟩] } := by
          intro k hk hkc
          have hkc2 := (hcolA k).mp hkc
          rcases (hbtA k).mp hk with hold | hnew
          · exact hdisj k hold hkc2.1
          · exact hkc2.2 hnew
        obtain ⟨st2, bm2, hrun2, hWF2, hbase2, hgrass2, hcoll2, hlen2b, hsep2, hval2,
            hbrW2, hdisj2⟩ :=
          ih (placed + 1) numB bmA
            { stA with placedBridges := stA.placedBridges ++ [⟨b.x, b.y, 0, b.x + b.len⟩] }
            ⟨hWFA.1, hWFA.2⟩ hcand3
            (by simp [hplA, hlen])
            (by omega)
            (by show ∀ pb ∈ stA.placedBridges ++ [(⟨b.x, b.y, 0, b.x + b.len⟩ : PlacedBridge)], _
                rw [hplA]
                exact hcells3)
            (by show BridgesSeparated
                  (stA.placedBridges ++ [(⟨b.x, b.y, 0, b.x + b.len⟩ : PlacedBridge)])
                rw [hplA]
                exact hsep3)
            (by show ∀ pb ∈ stA.placedBridges ++ [(⟨b.x, b.y, 0, b.x + b.len⟩ : PlacedBridge)], _
                rw [hplA]
                intro pb hpb
                rcases List.mem_append.mp hpb with hold | hnew
                · exact hval3 pb hold
                · rw [List.mem_singleton] at hnew
                  subst hnew
                  exact hvalNew)
            hbrW3 hdisj3
        refine ⟨st2, bm2, hrun2, hWF2, hbase2.trans hbaseA, hgrass2.trans hgrassA,
          ?_, hlen2b, hsep2, hval2, hbrW2, hdisj2⟩
        intro k hk
        exact ((hcolA k).mp (hcoll2 k hk)).1
    · rw [if_neg hdir]
      obtain ⟨hy1, hx1, hxw2, hlen2, hylh, hrun, ⟨tl, htl, htlw⟩, ⟨tr, htr, htrw⟩⟩ :=
        (hcand b (List.mem_cons_self _ _)).2 hdir
      have hscan : scanRunY h st.base (b.x : Int) (h + 1) b.y = Except.ok (b.y + b.len) :=
        scanRunY_exact htr htrw (by omega) (h + 1) b.y (by omega)
          (fun i h1 h2 => hrun i h1 h2) (by omega)
      rw [hscan, ok_bind]
      dsimp only
      by_cases htc : anyBridgeKey bm ((b.x : Int) - 2) ((b.x : Int) + 2)
          ((b.y : Int) - 2) (((b.y + b.len : Nat) : Int) + 2) = true
      · rw [if_pos htc]
        exact ih placed numB bm st hst (fun b2 hb2 => hcand b2 (List.mem_cons_of_mem _ hb2))
          hlen hpn hcells hsep hvalid hbrW hdisj
      · rw [if_neg htc]
        have htc2 : anyBridgeKey bm ((b.x : Int) - 2) ((b.x : Int) + 2)
            ((b.y : Int) - 2) (((b.y + b.len : Nat) : Int) + 2) = false := by
          rw [Bool.eq_false_iff]
          exact htc
        obtain ⟨stA, bmA, hstamp, hWFA, hbaseA, hgrassA, hplA, hbmA, hbtA, hcolA⟩ :=
          stampRunV_ok (x := (b.x : Int)) (Int.natCast_nonneg b.x) (by omega)
            (b.y + b.len - b.y) b.y st bm hst (by omega)
        rw [hstamp, ok_bind]
        dsimp only
        have hcand3 : ∀ b2 ∈ rest, candOK w h stA.base b2 := by
          rw [hbaseA]
          exact fun b2 hb2 => hcand b2 (List.mem_cons_of_mem _ hb2)
        have hcellsNew : ∀ c ∈ pbCells ⟨b.x, b.y, 1, b.y + b.len⟩,
            formatCoord (c.1 : Int) (c.2 : Int) ∈ bmA := by
          intro c hc
          rw [mem_pbCells_v] at hc
          refine (hbmA _).mpr (Or.inr ⟨c.2, hc.1, by omega, ?_⟩)
          rw [hc.2.2]
        have hcells3 : ∀ pb ∈ st.placedBridges ++ [(⟨b.x, b.y, 1, b.y + b.len⟩ : PlacedBridge)],
            ∀ c ∈ pbCells pb, formatCoord (c.1 : Int) (c.2 : Int) ∈ bmA := by
          intro pb hpb c hc
          rcases List.mem_append.mp hpb with hold | hnew
          · exact (hbmA _).mpr (Or.inl (hcells pb hold c hc))
          · rw [List.mem_singleton] at hnew
            subst hnew
            exact hcellsNew c hc
        have hsep3 : BridgesSeparated
            (st.placedBridges ++ [(⟨b.x, b.y, 1, b.y + b.len⟩ : PlacedBridge)]) := by
          refine List.pairwise_append.mpr ⟨hsep, List.pairwise_singleton _ _, ?_⟩
          intro p hp q hq c1 hc1 c2 hc2
          rw [List.mem_singleton] at hq
          subst hq
          rw [mem_pbCells_v] at hc2
          by_contra hgt
          have hle2 : chebDist c1 c2 ≤ 2 := by omega
          obtain ⟨hb1, hb2, hb3, hb4⟩ := chebDist_le_two hle2
          have hnotin := anyBridgeKey_false htc2 (c1.1 : Int) (c1.2 : Int)
            (by omega) (by omega) (by omega) (by omega)
          exact hnotin (hcells p hp c1 hc1)
        have hval3 : ∀ pb ∈ st.placedBridges,
            BridgeValid { stA with placedBridges :=
              stA.placedBridges ++ [⟨b.x, b.y, 1, b.y + b.len⟩] } pb := by
          intro pb hpb
          obtain ⟨hcv, hH, hV⟩ := hvalid pb hpb
          refine ⟨?_, ?_, ?_⟩
          · intro c hc
            obtain ⟨hw1, hw2, hw3⟩ := hcv c hc
            refine ⟨?_, (hbtA _).mpr (Or.inl hw2), ?_⟩
            · show getG stA.base (c.2 : Int) (c.1 : Int) = some TileWater
              rw [hbaseA]
              exact hw1
            · intro hk
              exact hw3 ((hcolA _).mp hk).1
          · intro hd0
            obtain ⟨⟨t1, ht1e, ht1w⟩, ⟨t2, ht2e, ht2w⟩⟩ := hH hd0
            refine ⟨⟨t1, ?_, ht1w⟩, ⟨t2, ?_, ht2w⟩⟩
            · show getG stA.base (pb.y : Int) ((pb.x : Int) - 1) = some t1
              rw [hbaseA]
              exact ht1e
            · show getG stA.base (pb.y : Int) (pb.endC : Int) = some t2
              rw [hbaseA]
              exact ht2e
          · intro hd1
            obtain ⟨⟨t1, ht1e, ht1w⟩, ⟨t2, ht2e, ht2w⟩⟩ := hV hd1
            refine ⟨⟨t1, ?_, ht1w⟩, ⟨t2, ?_, ht2w⟩⟩
            · show getG stA.base ((pb.y : Int) - 1) (pb.x : Int) = some t1
              rw [hbaseA]
              exact ht1e
            · show getG stA.base (pb.endC : Int) (pb.x : Int) = some t2
              rw [hbaseA]
              exact ht2e
        have hvalNew : BridgeValid { stA with placedBridges :=
            stA.placedBridges ++ [⟨b.x, b.y, 1, b.y + b.len⟩] } ⟨b.x, b.y, 1, b.y + b.len⟩ := by
          refine ⟨?_, ?_, ?_⟩
          · intro c hc
            rw [mem_pbCells_v] at hc
            refine ⟨?_, (hbtA _).mpr (Or.inr ⟨c.2, hc.1, by omega, by rw [hc.2.2]⟩), ?_⟩
            · show getG stA.base (c.2 : Int) (c.1 : Int) = some TileWater
              rw [hbaseA, hc.2.2]
              exact hrun c.2 hc.1 hc.2.1
            · intro hk
              exact ((hcolA _).mp hk).2 ⟨c.2, hc.1, by omega, by rw [hc.2.2]⟩
          · intro hd0
            exact absurd hd0 (show ¬(1 = 0) by omega)
          · intro _
            refine ⟨⟨tl, ?_, htlw⟩, ⟨tr, ?_, htrw⟩⟩
            · show getG stA.base ((b.y : Int) - 1) (b.x : Int) = some tl
              rw [hbaseA]
              exact htl
            · show getG stA.base ((b.y + b.len : Nat) : Int) (b.x : Int) = some tr
              rw [hbaseA]
              exact htr
        have hbrW3 : InvBridgeWater w h { stA with placedBridges :=
            stA.placedBridges ++ [⟨b.x, b.y, 1, b.y + b.len⟩] } := by
          intro x2 y2 hx2 hy2 hk
          rcases (hbtA _).mp hk with hold | ⟨i, hi1, hi2, he⟩
          · show getG stA.base (y2 : Int) (x2 : Int) = some TileWater
            rw [hbaseA]
            exact hbrW x2 y2 hx2 hy2 hold
          · have hilt : i < b.y + b.len := by omega
            obtain ⟨hxe, hye⟩ := formatCoord_injE x2 y2 b.x i
              (by omega) (by omega) (by omega) (by omega) he
            show getG stA.base (y2 : Int) (x2 : Int) = some TileWater
            rw [hbaseA, hxe, hye]
            exact hrun i hi1 hilt
        have hdisj3 : BridgeDisj { stA with placedBridges :=
            stA.placedBridges ++ [⟨b.x, b.y, 1, b.y + b.len⟩] } := by
          intro k hk hkc
          have hkc2 := (hcolA k).mp hkc
          rcases (hbtA k).mp hk with hold | hnew
          · exact hdisj k hold hkc2.1
          · exact hkc2.2 hnew
        obtain ⟨st2, bm2, hrun2, hWF2, hbase2, hgrass2, hcoll2, hlen2b, hsep2, hval2,
            hbrW2, hdisj2⟩ :=
          ih (placed + 1) numB bmA
            { stA with placedBridges := stA.placedBridges ++ [⟨b.x, b.y, 1, b.y + b.len⟩] }
            ⟨hWFA.1, hWFA.2⟩ hcand3
            (by simp [hplA, hlen])
            (by omega)
            (by show ∀ pb ∈ stA.placedBridges ++ [(⟨b.x, b.y, 1, b.y + b.len⟩ : PlacedBridge)], _
                rw [hplA]
                exact hcells3)
            (by show BridgesSeparated
                  (stA.placedBridges ++ [(⟨b.x, b.y, 1, b.y + b.len⟩ : PlacedBridge)])
                rw [hplA]
                exact hsep3)
            (by show ∀ pb ∈ stA.placedBridges ++ [(⟨b.x, b.y, 1, b.y + b.len⟩ : PlacedBridge)], _
                rw [hplA]
                intro pb hpb
                rcases List.mem_append.mp hpb with hold | hnew
                · exact hval3 pb hold
                · rw [List.mem_singleton] at hnew
                  subst hnew
                  exact hvalNew)
            hbrW3 hdisj3
        refine ⟨st2, bm2, hrun2, hWF2, hbase2.trans hbaseA, hgrass2.trans hgrassA,
          ?_, hlen2b, hsep2, hval2, hbrW2, hdisj2⟩
        intro k hk
        exact ((hcolA k).mp (hcoll2 k hk)).1

theorem placeBridges_ok {w h : Nat} (hw : w ≤ 128) (hh : h ≤ 128)
    {st : MapState} (hst : stWF w h st) (hbt : st.bridgeTiles = [])
    (hpl : st.placedBridges = []) (r : Rng) :
    ∃ st2, placeBridges w h st r = Except.ok (st2, r) ∧
      stWF w h st2 ∧ st2.base = st.base ∧ st2.grassTiles = st.grassTiles ∧
      (∀ k, k ∈ st2.collisionMap → k ∈ st.collisionMap) ∧
      st2.placedBridges.length ≤ 3 ∧
      BridgesSeparated st2.placedBridges ∧
      (∀ pb ∈ st2.placedBridges, BridgeValid st2 pb) ∧
      InvBridgeWater w h st2 ∧
      BridgeDisj st2 := by
  unfold placeBridges
  obtain ⟨hc, hhc, hhcP⟩ := hCands_ok hst.1
  rw [hhc, ok_bind]
  obtain ⟨vc, hvc, hvcP⟩ := vCands_ok hst.1
  rw [hvc, ok_bind]
  dsimp only
  have hcand : ∀ b ∈ sortByScore ((hc ++ vc).map (scoreCand w h)),
      candOK w h st.base b := by
    intro b hb
    obtain ⟨c, hcmem, hce⟩ := List.mem_map.mp (mem_sortByScore hb)
    rcases List.mem_append.mp hcmem with hmem | hmem
    · obtain ⟨hd, hok⟩ := hhcP c hmem
      subst hce
      constructor
      · intro _
        exact hok
      · intro hd1
        exact absurd hd hd1
    · obtain ⟨hd, hok⟩ := hvcP c hmem
      subst hce
      constructor
      · intro hd0
        have hcontra : (1 : Nat) = 0 := by
          rw [← hd]
          exact hd0
        cases hcontra
      · intro _
        exact hok
  have hnum3 : (goMin ((sortByScore ((hc ++ vc).map (scoreCand w h))).length : Int) 3).toNat ≤ 3 := by
    unfold goMin
    split <;> omega
  obtain ⟨st2, bm2, hrun2, hWF2, hbase2, hgrass2, hcoll2, hlen2, hsep2, hval2, hbrW2, hdisj2⟩ :=
    placeLoop_ok hw hh (sortByScore ((hc ++ vc).map (scoreCand w h))) 0
      ((goMin ((sortByScore ((hc ++ vc).map (scoreCand w h))).length : Int) 3).toNat) [] st
      hst hcand (by rw [hpl]; rfl) (Nat.zero_le _)
      (by rw [hpl]; intro pb hpb; cases hpb)
      (by show BridgesSeparated st.placedBridges; rw [hpl]; exact List.Pairwise.nil)
      (by rw [hpl]; intro pb hpb; cases hpb)
      (by intro x y hx hy hk; rw [hbt] at hk; cases hk)
      (by intro k hk; rw [hbt] at hk; cases hk)
  rw [hrun2, ok_bind]
  exact ⟨st2, rfl, hWF2, hbase2, hgrass2, hcoll2, by omega, hsep2, hval2, hbrW2, hdisj2⟩

/-! ## Lemmas: the whole generation pass -/

theorem initState_WF (w h : Nat) : stWF w h (initState w h) :=
  ⟨gridWF_initLayers w h, gridWF_initLayers w h⟩

theorem initState_grass (w h : Nat) : InvGrass w h (initState w h) := by
  intro x y hx hy _
  obtain ⟨v, hv⟩ := getG_eq_some (gridWF_initLayers w h) (Int.natCast_nonneg y)
    (by omega) (Int.natCast_nonneg x) (by omega)
  show getG (initLayers w h) (y : Int) (x : Int) = some TileGrass
  rw [hv, getG_initLayers hv]

theorem initState_collW (w h : Nat) : InvCollWater w h (initState w h) := by
  intro x y _ _ hmem
  cases hmem

theorem generateMap_ok {w h fuel : Nat} (hw5 : 5 ≤ w) (hw : w ≤ 128) (hh5 : 5 ≤ h)
    (hh : h ≤ 128) (r : Rng) :
    generateMap w h fuel r ≠ Except.error GenErr.oob ∧
    (∀ st2 r2, generateMap w h fuel r = Except.ok (st2, r2) →
      stWF w h st2 ∧ InvGrass w h st2 ∧ InvColl w h st2 ∧ BridgeDisj st2 ∧
      InvBridgeWater w h st2 ∧ (∀ pb ∈ st2.placedBridges, BridgeValid st2 pb) ∧
      BridgesSeparated st2.placedBridges ∧ st2.placedBridges.length ≤ 3) := by
  unfold generateMap
  obtain ⟨stW, rW, hWrun, hWF1, hG1, hC1, hov1, hbt1, hpl1⟩ :=
    generateWaterBodies_ok hw hh (initState_WF w h) (initState_grass w h)
      (initState_collW w h) r
  rw [hWrun, ok_bind]
  dsimp only
  have hpaths := @generatePaths_no_oob w h fuel (by omega) (by omega) stW rW hWF1
  cases hprun : generatePaths w h fuel stW rW with
  | error e =>
    rw [error_bind]
    cases e with
    | oob => exact absurd hprun hpaths.1
    | fuelOut =>
      refine ⟨(fun hc => by simp at hc), ?_⟩
      intro st2 r2 he
      cases he
  | ok pres =>
    rw [ok_bind]
    have hWF2 : stWF w h pres.1 := hpaths.2 pres.1 pres.2 (by rw [hprun])
    have hpr2 : generatePaths w h fuel stW rW = Except.ok (pres.1, pres.2) := by
      rw [hprun]
    have hframe : PathFrame stW pres.1 := generatePaths_frame hpr2
    have hG2 := pathFrame_invGrass hframe hG1
    have hC2 := pathFrame_invCollWater hframe hC1
    obtain ⟨stM, rM, hMrun, hWF3, hG3, hC3, hov3, hbt3, hpl3⟩ :=
      generateMountains_ok hw hh hWF2 hG2 (invCollWater_invColl hC2) pres.2
    rw [hMrun, ok_bind]
    dsimp only
    have hbtM : stM.bridgeTiles = [] := by
      rw [hbt3, hframe.2.2.1, hbt1]
      rfl
    have hplM : stM.placedBridges = [] := by
      rw [hpl3, hframe.2.2.2.1, hpl1]
      rfl
    obtain ⟨stB, hBrun, hWFB, hbaseB, hgrassB, hcollB, hlenB, hsepB, hvalB, hbrWB, hdisjB⟩ :=
      placeBridges_ok hw hh hWF3 hbtM hplM rM
    rw [hBrun]
    refine ⟨(fun hc => by cases hc), ?_⟩
    intro st2 r2 he
    cases he
    refine ⟨hWFB, ?_, ?_, hdisjB, hbrWB, hvalB, hsepB, hlenB⟩
    · intro x y hx hy hk
      rw [hgrassB] at hk
      rw [hbaseB]
      exact hG3 x y hx hy hk
    · intro x y hx hy hk
      have hk2 := hcollB _ hk
      rw [hbaseB]
      exact hC3 x y hx hy hk2

theorem pathWalk_stuck_err {w h : Nat} (hw : 0 < w) (hh : 0 < h) :
    ∀ (fuel : Nat) (st : MapState) (p : Nat), stWF w h st →
    pathWalk fuel 1 0 0 0 st ⟨fun _ => 9, p⟩ = Except.error GenErr.fuelOut := by
  intro fuel
  induction fuel with
  | zero =>
    intro st p _
    unfold pathWalk
    rw [if_neg (by intro hc; exact absurd hc.1 (by omega))]
  | succ n ih =>
    intro st p hst
    unfold pathWalk
    rw [if_neg (by intro hc; exact absurd hc.1 (by omega))]
    obtain ⟨stA, hspA, hstA⟩ := stampPath_ok hst (le_refl 0) (by exact_mod_cast hh)
      (le_refl 0) (by exact_mod_cast hw)
    rw [hspA, ok_bind]
    dsimp only
    rw [if_pos (show (0 : Int) < 1 by omega)]
    rw [if_neg (show ¬(randF ⟨fun _ => 9, p⟩).1 < 7 from by
      show ¬9 % 10 < 7
      decide)]
    rw [if_neg (show ¬(0 : Int) < 0 by omega), if_neg (show ¬(0 : Int) < 0 by omega)]
    exact ih stA (p + 1) hstA

/-- The concrete 5 × 5 generation run on the all-zeros stream, for the
witnesses; its value is the ok-payload of `generateMap 5 5 100 rzero`. -/
def genFiveOut : MapState × Rng :=
  match generateMap 5 5 100 rzero with
  | Except.ok p => p
  | Except.error _ => (initState 5 5, rzero)

theorem genFive_eq : generateMap 5 5 100 rzero = Except.ok (genFiveOut.1, genFiveOut.2) := rfl

/-- The concrete 5 × 5 path run on the all-zeros stream, for the C6
witness. -/
def pathsFiveOut : MapState × Rng :=
  match generatePaths 5 5 100 (initState 5 5) rzero with
  | Except.ok p => p
  | Except.error _ => (initState 5 5, rzero)

theorem cornerBlock_WF : gridWF 20 15 cornerBlock :=
  ⟨by decide, by decide⟩

/-! ## Claim theorems -/

/-- Claim C1, corrected: water generation runs exactly 4 cellular-automaton
relaxation passes, each recomputing every cell from the previous pass's
grid (not in place), and a cell of the new grid becomes water iff at least
4 cells of its Moore NEIGHBORHOOD — the up-to-8 surrounding cells PLUS the
cell itself — were water in the old grid. The spec's rule, which counts
only the up-to-8 surrounding cells and not the cell itself, does not match
the source: the source's dx/dy loop does not skip the (0,0) offset. -/
theorem C1_relaxation (w h : Nat) (m : BGrid) (hm : gridWF w h m) :
    relaxWater w h m =
      Except.ok (caGrid w h (caGrid w h (caGrid w h (caGrid w h m)))) ∧
    ∀ (g : BGrid) (x y : Nat), x < w → y < h →
      getG (caGrid w h g) (y : Int) (x : Int) =
        some (decide (4 ≤ mooreWaterCount w h g (x : Int) (y : Int) +
          selfWater w h g (x : Int) (y : Int))) := by
  refine ⟨relaxWater_ok hm, ?_⟩
  intro g x y hx hy
  rw [getG_caGrid g hx hy, nbrCount_split]

/-- Witness for C1: the corrected relaxation statement at the concrete
20 × 15 grid cornerBlock. -/
theorem C1_relaxation_witness :
    gridWF 20 15 cornerBlock ∧
    relaxWater 20 15 cornerBlock = Except.ok
      (caGrid 20 15 (caGrid 20 15 (caGrid 20 15 (caGrid 20 15 cornerBlock)))) :=
  ⟨cornerBlock_WF, (C1_relaxation 20 15 cornerBlock cornerBlock_WF).1⟩

/-- Counterexample to C1 as written: on the grid cornerBlock, the cell
(0, 0) has only 3 water cells among its proper Moore neighbors (the cell
itself not counted), so under the spec's rule it would become land, yet
the pass the source runs keeps it water (the source also counts the cell
itself, reaching 4). -/
theorem C1_counterexample :
    caPass 20 15 cornerBlock = Except.ok (caGrid 20 15 cornerBlock) ∧
    getG (caGrid 20 15 cornerBlock) 0 0 = some true ∧
    mooreWaterCount 20 15 cornerBlock 0 0 = 3 :=
  ⟨caPass_ok cornerBlock_WF, by decide, by decide⟩

/-- Claim C2: after the full generation pass, every collision key over an
in-range coordinate has a Water or Mountain base tile, and no key is in
both the bridge set and the collision map. -/
theorem C2_collision_consistency (w h fuel : Nat) (hw5 : 5 ≤ w) (hw : w ≤ 128)
    (hh5 : 5 ≤ h) (hh : h ≤ 128) (r : Rng) (s : MapState) (q : Rng)
    (hrun : generateMap w h fuel r = Except.ok (s, q)) :
    InvColl w h s ∧ BridgeDisj s := by
  obtain ⟨-, h2⟩ := generateMap_ok hw5 hw hh5 hh r
  obtain ⟨-, -, hC, hD, -⟩ := h2 s q hrun
  exact ⟨hC, hD⟩

/-- Witness for C2: the concrete 5 × 5 run on the all-zeros stream. -/
theorem C2_collision_consistency_witness :
    InvColl 5 5 genFiveOut.1 ∧ BridgeDisj genFiveOut.1 :=
  C2_collision_consistency 5 5 100 (by decide) (by decide) (by decide) (by decide)
    rzero genFiveOut.1 genFiveOut.2 genFive_eq

/-- Claim C3: membership in the grass set implies a Grass base tile, at the
end of the full pass and at the end of each synthesizer stage (after
water, after paths, after mountains). -/
theorem C3_grass_invariant (w h fuel : Nat) (hw5 : 5 ≤ w) (hw : w ≤ 128)
    (hh5 : 5 ≤ h) (hh : h ≤ 128) (r : Rng) (s : MapState) (q : Rng)
    (hrun : generateMap w h fuel r = Except.ok (s, q)) :
    InvGrass w h s ∧
    (∀ sW qW, generateWaterBodies w h (initState w h) r = Except.ok (sW, qW) →
      InvGrass w h sW ∧
      ∀ sP qP, generatePaths w h fuel sW qW = Except.ok (sP, qP) →
        InvGrass w h sP ∧
        ∀ sM qM, generateMountains w h sP qP = Except.ok (sM, qM) →
          InvGrass w h sM) := by
  constructor
  · obtain ⟨-, h2⟩ := generateMap_ok hw5 hw hh5 hh r
    exact (h2 s q hrun).2.1
  · intro sW qW hW
    obtain ⟨sW2, qW2, hW2, hWF1, hG1, hC1, -, -, -⟩ :=
      generateWaterBodies_ok hw hh (initState_WF w h) (initState_grass w h)
        (initState_collW w h) r
    rw [hW2] at hW
    injection hW with hp
    have hsW : sW2 = sW := congrArg Prod.fst hp
    rw [hsW] at hWF1 hG1 hC1
    refine ⟨hG1, ?_⟩
    intro sP qP hP
    have hframe : PathFrame sW sP := generatePaths_frame hP
    have hGP := pathFrame_invGrass hframe hG1
    refine ⟨hGP, ?_⟩
    intro sM qM hM
    have hWFP : stWF w h sP :=
      (@generatePaths_no_oob w h fuel (by omega) (by omega) sW qW hWF1).2 sP qP hP
    obtain ⟨sM2, qM2, hM2, -, hG3, -, -, -, -⟩ :=
      generateMountains_ok hw hh hWFP hGP
        (invCollWater_invColl (pathFrame_invCollWater hframe hC1)) qP
    rw [hM2] at hM
    injection hM with hpM
    have hsM : sM2 = sM := congrArg Prod.fst hpM
    rw [hsM] at hG3
    exact hG3

/-- Witness for C3: the concrete 5 × 5 run on the all-zeros stream. -/
theorem C3_grass_invariant_witness : InvGrass 5 5 genFiveOut.1 :=
  (C3_grass_invariant 5 5 100 (by decide) (by decide) (by decide) (by decide)
    rzero genFiveOut.1 genFiveOut.2 genFive_eq).1

/-- Claim C4: after the full generation pass, every bridge-set key over an
in-range coordinate has a Water base tile, and every placed bridge is
valid — each footprint cell has a Water base tile, is in the bridge set
and not in the collision map, and the two cells immediately beyond the
ends of the run exist and are not Water. -/
theorem C4_bridge_validity (w h fuel : Nat) (hw5 : 5 ≤ w) (hw : w ≤ 128)
    (hh5 : 5 ≤ h) (hh : h ≤ 128) (r : Rng) (s : MapState) (q : Rng)
    (hrun : generateMap w h fuel r = Except.ok (s, q)) :
    InvBridgeWater w h s ∧ ∀ pb ∈ s.placedBridges, BridgeValid s pb := by
  obtain ⟨-, h2⟩ := generateMap_ok hw5 hw hh5 hh r
  obtain ⟨-, -, -, -, hBW, hBV, -⟩ := h2 s q hrun
  exact ⟨hBW, hBV⟩

/-- Witness for C4: the concrete 5 × 5 run on the all-zeros stream. -/
theorem C4_bridge_validity_witness :
    InvBridgeWater 5 5 genFiveOut.1 ∧
    ∀ pb ∈ genFiveOut.1.placedBridges, BridgeValid genFiveOut.1 pb :=
  C4_bridge_validity 5 5 100 (by decide) (by decide) (by decide) (by decide)
    rzero genFiveOut.1 genFiveOut.2 genFive_eq

/-- Claim C5: after the full generation pass, any two distinct placed
bridges have every pair of footprint cells at Chebyshev distance strictly
greater than 2, and at most 3 bridges are placed. -/
theorem C5_bridge_separation (w h fuel : Nat) (hw5 : 5 ≤ w) (hw : w ≤ 128)
    (hh5 : 5 ≤ h) (hh : h ≤ 128) (r : Rng) (s : MapState) (q : Rng)
    (hrun : generateMap w h fuel r = Except.ok (s, q)) :
    BridgesSeparated s.placedBridges ∧ s.placedBridges.length ≤ 3 := by
  obtain ⟨-, h2⟩ := generateMap_ok hw5 hw hh5 hh r
  obtain ⟨-, -, -, -, -, -, hsep, hlen⟩ := h2 s q hrun
  exact ⟨hsep, hlen⟩

/-- Witness for C5: the concrete 5 × 5 run on the all-zeros stream. -/
theorem C5_bridge_separation_witness :
    BridgesSeparated genFiveOut.1.placedBridges ∧
    genFiveOut.1.placedBridges.length ≤ 3 :=
  C5_bridge_separation 5 5 100 (by decide) (by decide) (by decide) (by decide)
    rzero genFiveOut.1 genFiveOut.2 genFive_eq

/-- Claim C6: the path synthesizer's frame — it leaves the Overlay layer,
the collision map, the bridge set and the bridge log untouched, preserves
every Water base cell, only ever changes a base cell to Path (the old
value not being Water) while removing its key from the grass set, and the
grass set only shrinks. -/
theorem C6_path_frame {w h fuel : Nat} {s : MapState} {r : Rng}
    {s2 : MapState} {q : Rng}
    (hrun : generatePaths w h fuel s r = Except.ok (s2, q)) :
    PathFrame s s2 :=
  generatePaths_frame hrun

/-- Witness for C6: the concrete 5 × 5 path stage on the all-zeros
stream. -/
theorem C6_path_frame_witness : PathFrame (initState 5 5) pathsFiveOut.1 :=
  C6_path_frame (show generatePaths 5 5 100 (initState 5 5) rzero =
    Except.ok (pathsFiveOut.1, pathsFiveOut.2) from rfl)

/-- Claim C7, corrected: the per-segment walk of the path synthesizer does
NOT terminate for every random stream (the walk can stall forever when the
x coordinates differ, every draw fails the 0.7 roll, and the y coordinates
agree — see the C7 counterexample); it does terminate, stream-independent
bounds notwithstanding, whenever every draw of the stream passes the 0.7
roll (value mod 10 < 7), within Manhattan-distance-many steps. -/
theorem C7_walk_termination {w h : Nat} (fuel : Nat) (a b x y : Int)
    (s : MapState) (r : Rng) (hst : stWF w h s)
    (hx0 : 0 ≤ x) (hxw : x < (w : Int)) (hy0 : 0 ≤ y) (hyh : y < (h : Int))
    (ha0 : 0 ≤ a) (haw : a < (w : Int)) (hb0 : 0 ≤ b) (hbh : b < (h : Int))
    (hgood : ∀ i, r.stream i % 10 < 7)
    (hfuel : (a - x).natAbs + (b - y).natAbs ≤ fuel) :
    ∃ s2 q, pathWalk fuel a b x y s r = Except.ok (s2, q) :=
  pathWalk_term fuel a b x y s r hst hx0 hxw hy0 hyh ha0 haw hb0 hbh hgood hfuel

/-- Witness for C7: on the 5 × 5 initial state with the all-zeros stream,
the walk from (0, 0) to (1, 1) finishes within fuel 2. -/
theorem C7_walk_termination_witness :
    ∃ s2 q, pathWalk 2 1 1 0 0 (initState 5 5) rzero = Except.ok (s2, q) :=
  C7_walk_termination 2 1 1 0 0 (initState 5 5) rzero (initState_WF 5 5)
    (by omega) (by omega) (by omega) (by omega) (by omega) (by omega) (by omega) (by omega)
    (fun _ => (by decide : (0 : Nat) % 10 < 7)) (by decide)

/-- Counterexample to C7 as written: the walk is NOT bounded by the map
dimensions for every random stream. On the 20 × 15 map with the stream
that always draws 9 (every 0.7 roll fails), the walk toward end point
(1, 0) from (0, 0) makes no progress — x stays put because the roll
always fails and y is already aligned — so after 300 = 20 × 15 iterations
(more than any dimension-derived bound) the loop is still running: the
fuelled embedding exhausts all 300 steps and returns fuelOut. The helper
pathWalk_stuck_err proves the same for every fuel, so the loop never
terminates on this stream. -/
theorem C7_counterexample :
    pathWalk 300 1 0 0 0 (initState 20 15) rnine = Except.error GenErr.fuelOut :=
  pathWalk_stuck_err (w := 20) (h := 15) (by omega) (by omega)
    300 (initState 20 15) 0 (initState_WF 20 15)

/-- Claim C8: generation is deterministic given the random source — two
runs with the same dimensions and the same stream that both succeed
produce identical base and overlay layers and identical grass, collision
and bridge sets. -/
theorem C8_determinism (w h fuel : Nat) (r1 r2 : Rng) (hr : r1 = r2)
    (s1 s2 : MapState) (q1 q2 : Rng)
    (h1 : generateMap w h fuel r1 = Except.ok (s1, q1))
    (h2 : generateMap w h fuel r2 = Except.ok (s2, q2)) :
    s1.base = s2.base ∧ s1.overlay = s2.overlay ∧ s1.grassTiles = s2.grassTiles ∧
    s1.collisionMap = s2.collisionMap ∧ s1.bridgeTiles = s2.bridgeTiles := by
  subst hr
  rw [h1] at h2
  injection h2 with hp
  have hs : s1 = s2 := congrArg Prod.fst hp
  rw [hs]
  exact ⟨rfl, rfl, rfl, rfl, rfl⟩

/-- Witness for C8: the concrete 5 × 5 run on the all-zeros stream,
compared with itself. -/
theorem C8_determinism_witness :
    genFiveOut.1.base = genFiveOut.1.base ∧
    genFiveOut.1.overlay = genFiveOut.1.overlay ∧
    genFiveOut.1.grassTiles = genFiveOut.1.grassTiles ∧
    genFiveOut.1.collisionMap = genFiveOut.1.collisionMap ∧
    genFiveOut.1.bridgeTiles = genFiveOut.1.bridgeTiles :=
  C8_determinism 5 5 100 rzero rzero rfl genFiveOut.1 genFiveOut.1
    genFiveOut.2 genFiveOut.2 genFive_eq genFive_eq

/-- Claim C9: formatCoord is lossy for coordinates at 10 or above in an
axis — two distinct coordinate pairs, one with a component at 10 or
above, map to the same string key. The collision exhibited is Go's
string(rune(x)) conversion collapsing the surrogate code points 0xD800
and 0xD801 both to U+FFFD. -/
theorem C9_formatCoord_lossy :
    ∃ a b c d : Nat, (a, b) ≠ (c, d) ∧ 10 ≤ a ∧
      formatCoord (a : Int) (b : Int) = formatCoord (c : Int) (d : Int) :=
  ⟨55296, 0, 55297, 0, by decide, by decide, by decide⟩

/-- Claim C10: the generation pass never takes a guarded out-of-range
branch — for every stream, the embedding of the full pass (where every
tile access is bounds-checked and an out-of-range access would surface as
the oob error) never returns the oob error. -/
theorem C10_no_oob (w h fuel : Nat) (hw5 : 5 ≤ w) (hw : w ≤ 128)
    (hh5 : 5 ≤ h) (hh : h ≤ 128) (r : Rng) :
    generateMap w h fuel r ≠ Except.error GenErr.oob :=
  (generateMap_ok hw5 hw hh5 hh r).1

/-- Witness for C10: the concrete 5 × 5 run on the all-zeros stream. -/
theorem C10_no_oob_witness :
    generateMap 5 5 100 rzero ≠ Except.error GenErr.oob :=
  C10_no_oob 5 5 100 (by decide) (by decide) (by decide) (by decide) rzero

end CreatureMap
